import Mathlib

/-! The ahkdll object runtime: reference counting, FlatVector and the Object field store.

A shallow embedding of `source/script_object.h`.  Every definition is a
transcription of the C++ member of the same name.  Machine integers are
`Nat`/`Int` with explicit reduction modulo `2^w`; calls into other objects
(virtual hooks, the C allocator) are explicit parameters.
-/

namespace Ahk

/-! ## Machine words -/

/-- Number of values of a `ULONG` (32 bits on every Windows target). -/
@[irreducible] def ULONG_RANGE : Nat := 2 ^ 32

/-- Reduction of an integer into the signed `w`-bit range (two's complement wrap-around). -/
def wrapS (w : Nat) (x : Int) : Int :=
  (x + ((2 ^ (w - 1) : Nat) : Int)) % ((2 ^ w : Nat) : Int) - ((2 ^ (w - 1) : Nat) : Int)

/-- The C cast `(int)x`: truncation to a signed 32-bit value. -/
def toInt32 (x : Int) : Int := wrapS 32 x

/-- Membership in the signed `w`-bit range. -/
def InRangeS (w : Nat) (x : Int) : Prop :=
  -((2 ^ (w - 1) : Nat) : Int) ≤ x ∧ x < ((2 ^ (w - 1) : Nat) : Int)

instance (w : Nat) (x : Int) : Decidable (InRangeS w x) := by
  unfold InRangeS; infer_instance

/-! ## ObjectBase -/

/-- The data of an `ObjectBase`: the `ULONG mRefCount` member, and whether
`delete this` has been executed on the object. -/
structure ObjectBase where
  mRefCount : Nat
  deleted : Bool
deriving DecidableEq, Repr

namespace ObjectBase

/-- Source: `ObjectBase() : mRefCount(1) {}` -/
def new : ObjectBase := { mRefCount := 1, deleted := false }

/-- The virtual `Delete()` hook of a class derived from `ObjectBase`: an arbitrary
state transformer that reports whether it destroyed the object. -/
abbrev DeleteHook := ObjectBase → Bool × ObjectBase

/-- Source: `virtual bool Delete() { delete this; return true; }` -/
def Delete : DeleteHook := fun s => (true, { s with deleted := true })

/-- Source: `ULONG AddRef() { return ++mRefCount; }` -/
def AddRef (s : ObjectBase) : Nat × ObjectBase :=
  let c := (s.mRefCount + 1) % ULONG_RANGE
  (c, { s with mRefCount := c })

/-- The outcome of one `Release()` call: the returned `ULONG`, the object afterwards,
and how many times the call invoked the `Delete` hook. -/
structure ReleaseResult where
  ret : Nat
  obj : ObjectBase
  deleteCalls : Nat
deriving DecidableEq, Repr

/-- Source: `ULONG Release()`:
```
if (mRefCount == 1) { if (Delete()) return 0; }
return --mRefCount;
``` -/
def Release (hook : DeleteHook) (s : ObjectBase) : ReleaseResult :=
  if s.mRefCount = 1 then
    let r := hook s
    if r.1 then
      { ret := 0, obj := r.2, deleteCalls := 1 }
    else
      let c := (r.2.mRefCount + ULONG_RANGE - 1) % ULONG_RANGE
      { ret := c, obj := { r.2 with mRefCount := c }, deleteCalls := 1 }
  else
    let c := (s.mRefCount + ULONG_RANGE - 1) % ULONG_RANGE
    { ret := c, obj := { s with mRefCount := c }, deleteCalls := 0 }

/-- The record of `k` consecutive `Release()` calls: the list of returned values in
call order, the object after the last call, and the total number of `Delete` invocations. -/
def ReleaseN (hook : DeleteHook) : Nat → ObjectBase → List Nat × ObjectBase × Nat
  | 0, s => ([], s, 0)
  | k + 1, s =>
    let r := Release hook s
    let rest := ReleaseN hook k r.obj
    (r.ret :: rest.1, rest.2.1, r.deleteCalls + rest.2.2)

/-- The values returned by `k` consecutive `AddRef()` calls, and the object afterwards. -/
def AddRefN : Nat → ObjectBase → List Nat × ObjectBase
  | 0, s => ([], s)
  | k + 1, s =>
    let r := AddRef s
    let rest := AddRefN k r.2
    (r.1 :: rest.1, rest.2)

end ObjectBase

/-! ## FlatVector -/

/-- Source: `struct Data { size_t size; size_t length; T value[1]; };` where `value` extends
over the rest of the allocation. -/
structure FlatVector.Data (T : Type) where
  size : Nat
  length : Nat
  value : List T
deriving DecidableEq, Repr

/-- The value of the member `Data *data`: the address of the static `Empty`, or an owned
heap block (identified with its contents). -/
inductive FlatVector.DataPtr (T : Type) where
  | Empty
  | Heap (block : FlatVector.Data T)
deriving DecidableEq, Repr

/-- One `FlatVector<T>` together with the storage it can reach: the static member
`Empty` shared by all instances, and the `data` pointer. -/
structure FlatVector (T : Type) where
  Empty : FlatVector.Data T
  data : FlatVector.DataPtr T
deriving DecidableEq, Repr

namespace FlatVector

variable {T : Type}

/-- The static `Data Empty` as the loader initialises it (zero-filled). -/
def Data.zero : Data T := { size := 0, length := 0, value := [] }

/-- The C library `realloc`: given the old block (`none` for `NULL`) and a byte count,
either fails (`none`, old block untouched) or returns the new block. -/
abbrev Realloc (T : Type) := Option (Data T) → Nat → Option (Data T)

/-- The object `*data`. -/
def deref (v : FlatVector T) : Data T :=
  match v.data with
  | .Empty => v.Empty
  | .Heap b => b

/-- Source: `void Init() { data = &Empty; }` -/
def Init (v : FlatVector T) : FlatVector T := { v with data := .Empty }

/-- Source: `void Free() { if (data != &Empty) { free(data); data = &Empty; } }` -/
def Free (v : FlatVector T) : FlatVector T :=
  match v.data with
  | .Empty => v
  | .Heap _ => { v with data := .Empty }

/-- Source: `size_t &Length() { return data->length; }` (read access). -/
def Length (v : FlatVector T) : Nat := v.deref.length

/-- Source: `size_t Capacity() { return data->size; }` -/
def Capacity (v : FlatVector T) : Nat := v.deref.size

/-- Source: `T *Value() { return data->value; }` (the elements reachable through the pointer). -/
def Value (v : FlatVector T) : List T := v.deref.value

/-- The byte count passed to `realloc`: `new_size * sizeof(T) + header_size`, computed
in `size_t` of `w` bits, with `header_size = sizeof(Data) - sizeof(T)`. -/
def requestBytes (w sizeofT header_size new_size : Nat) : Nat :=
  (new_size * sizeofT + header_size) % 2 ^ w

/-- Source: `bool SetCapacity(size_t new_size)`:
```
Data *d = (data == &Empty) ? NULL : data;
size_t length = data->length;
if (!(d = (Data *)realloc(d, new_size * sizeof(T) + header_size))) return false;
data = d; data->size = new_size; data->length = length;
return true;
``` -/
def SetCapacity (realloc : Realloc T) (w sizeofT header_size : Nat)
    (v : FlatVector T) (new_size : Nat) : Bool × FlatVector T :=
  let d : Option (Data T) :=
    match v.data with
    | .Empty => none
    | .Heap b => some b
  let length := v.deref.length
  match realloc d (requestBytes w sizeofT header_size new_size) with
  | none => (false, v)
  | some d1 => (true, { v with data := .Heap { d1 with size := new_size, length := length } })

/-- The argument `d` that `SetCapacity` hands to `realloc`. -/
def reallocArg (v : FlatVector T) : Option (Data T) :=
  match v.data with
  | .Empty => none
  | .Heap b => some b

/-- An allocator that always succeeds and keeps the old block's elements. -/
def reallocOk : Realloc Nat := fun d _ => some (d.getD Data.zero)

/-- An allocator that always fails. -/
def reallocFail : Realloc Nat := fun _ _ => none

end FlatVector

/-! ## Object: the three-zone field store -/

/-- The symbols that tag a value or a key kind (`SymbolType`, the members used here). -/
inductive SymbolType where
  | SYM_STRING
  | SYM_INTEGER
  | SYM_FLOAT
  | SYM_OBJECT
deriving DecidableEq, Repr

/-- An `ExprTokenType` holding a value: the symbol together with the union member it
selects.  A `double` is carried as its bit pattern, an `IObject *` as its address, a
string as its text. -/
inductive ExprTokenType where
  | SYM_INTEGER (value_int64 : Int)
  | SYM_FLOAT (value_double : Nat)
  | SYM_OBJECT (object : Int)
  | SYM_STRING (marker : List Char)
deriving DecidableEq, Repr

/-- Source: `union KeyType { LPTSTR s; IntKeyType i; IObject *p; }`: which member a field uses
depends on the zone the field lies in. -/
inductive KeyType where
  | s (text : List Char)
  | i (value : Int)
  | p (object : Int)
deriving DecidableEq, Repr

namespace KeyType

/-- Reading the member `i`: defined for an integer key and for an object key (whose
address is compared as an integer); undefined for a string key. -/
def i? : KeyType → Option Int
  | .i v => some v
  | .p a => some a
  | .s _ => none

/-- Reading the member `s`, defined only when the key is a string. -/
def s? : KeyType → Option (List Char)
  | .s t => some t
  | _ => none

/-- Reading the member `p`, defined only when the key is an object reference. -/
def p? : KeyType → Option Int
  | .p a => some a
  | _ => none

/-- Whether the key is an integer key. -/
def isInt : KeyType → Bool
  | .i _ => true
  | _ => false

end KeyType

/-- Source: `struct FieldType`: the value (union and `symbol` together) and the key. -/
structure FieldType where
  value : ExprTokenType
  key : KeyType
deriving DecidableEq, Repr

/-- The C runtime `_tcsicmp`: case-insensitive lexicographic comparison (sign only). -/
def tcsicmp : List Char → List Char → Int
  | [], [] => 0
  | [], _ :: _ => -1
  | _ :: _, [] => 1
  | a :: as, b :: bs =>
    let x := if 65 ≤ a.toNat ∧ a.toNat ≤ 90 then a.toNat + 32 else a.toNat
    let y := if 65 ≤ b.toNat ∧ b.toNat ≤ 90 then b.toNat + 32 else b.toNat
    if x < y then -1 else if y < x then 1 else tcsicmp as bs

namespace FieldType

/-- Source: `inline IntKeyType CompareKey(IntKeyType val) { return val - key.i; }` in `w`-bit
two's complement. -/
def CompareKeyInt (w : Nat) (f : FieldType) (val : Int) : Option Int :=
  f.key.i?.map (fun k => wrapS w (val - k))

/-- Source: `inline int CompareKey(LPTSTR val) { return _tcsicmp(val, key.s); }` -/
def CompareKeyStr (f : FieldType) (val : List Char) : Option Int :=
  f.key.s?.map (fun k => tcsicmp val k)

/-- Modelled from the spec: `FieldType::ToToken` is declared in `script_object.h` and
defined elsewhere; it hands out the field's value as is, in a token (no AddRef, no
string copy). -/
def ToToken (f : FieldType) : ExprTokenType := f.value

end FieldType

/-- Calls that leave the object: reference counting on other objects and releases of
heap storage, in the order they are made. -/
inductive Effect where
  | AddRef (object : Int)
  | Release (object : Int)
  | free_key (index : Int) (text : List Char)
  | Release_key (index : Int) (object : Int)
  | Free_value (index : Int)
  | free_mFields
deriving DecidableEq, Repr

/-- The data members of `class Object : public ObjectBase`.  `mFields` is `none` for
`NULL`, otherwise the initialised slots of the array; `mBase` is an address, 0 for
`NULL`. -/
structure Object extends ObjectBase where
  mBase : Int
  mFields : Option (List FieldType)
  mFieldCount : Int
  mFieldCountMax : Int
  mKeyOffsetObject : Int
  mKeyOffsetString : Int
deriving DecidableEq, Repr

/-- What the out-of-line helpers may ask of the environment: the pointer width `w`
(`INT_PTR` has `w` bits), whether growing the field array to a given number of fields
succeeds, whether copying a string succeeds, and the text of a `double`. -/
structure Env where
  w : Nat
  alloc : Int → Bool
  strdup : List Char → Bool
  ftoa : Nat → List Char

namespace FieldType

/-- Modelled from the spec: `FieldType::Assign(ExprTokenType &)` is declared in
`script_object.h` and defined elsewhere: it stores the value in the field, failing (and
leaving the field as it was) when a string value cannot be copied. -/
def Assign (env : Env) (f : FieldType) (val : ExprTokenType) : Bool × FieldType :=
  match val with
  | .SYM_STRING t =>
    if t = [] ∨ env.strdup t = true then (true, { f with value := val }) else (false, f)
  | _ => (true, { f with value := val })

end FieldType

namespace Object

/-- Source: `static const IndexType mKeyOffsetInt = 0;` -/
def mKeyOffsetInt : Int := 0

/-- Source: `Object() : mBase(NULL), mFields(NULL), mFieldCount(0), mFieldCountMax(0),
mKeyOffsetObject(0), mKeyOffsetString(0) {}` on top of `ObjectBase()`. -/
def new : Object :=
  { toObjectBase := ObjectBase.new, mBase := 0, mFields := none, mFieldCount := 0,
    mFieldCountMax := 0, mKeyOffsetObject := 0, mKeyOffsetString := 0 }

/-- The initialised slots of `mFields` (none when it is `NULL`). -/
def fields (o : Object) : List FieldType := o.mFields.getD []

/-- The expression `mFields[i]`: undefined outside the initialised slots. -/
def fieldAt (o : Object) (i : Int) : Option FieldType :=
  if 0 ≤ i then o.fields[i.toNat]? else none

/-- Modelled from the spec: `IsNumeric` is not part of `script_object.h`; as called by
`GetItem` it answers `SYM_INTEGER` when the text is a fully-formed decimal integer (an
optional sign followed by one or more decimal digits) and `SYM_STRING` otherwise. -/
def IsNumeric (aBuf : List Char) : SymbolType :=
  let body :=
    match aBuf with
    | c :: rest => if c.toNat = 45 ∨ c.toNat = 43 then rest else c :: rest
    | [] => []
  if body ≠ [] ∧ body.all (fun c => decide (48 ≤ c.toNat ∧ c.toNat ≤ 57)) then .SYM_INTEGER
  else .SYM_STRING

/-- The integer that a decimal text (an optional sign followed by digits) denotes. -/
def decimalValue (aBuf : List Char) : Int :=
  let digits (l : List Char) : Int := l.foldl (fun acc c => acc * 10 + ((c.toNat : Int) - 48)) 0
  match aBuf with
  | c :: rest =>
    if c.toNat = 45 then -(digits rest)
    else if c.toNat = 43 then digits rest
    else digits (c :: rest)
  | [] => 0

/-- Modelled from the spec: `ATOI` is not part of `script_object.h`; it yields the
integer the decimal text denotes, stored into the `w`-bit member `key.i`. -/
def ATOI (w : Nat) (aBuf : List Char) : Int := wrapS w (decimalValue aBuf)

/-- The outcome of a field search: the index of the field found (the C++ returns
`&mFields[index]`, or `NULL` on a miss) and the value left in `insert_pos`. -/
structure FindResult where
  field : Option Int
  insert_pos : Int
deriving DecidableEq, Repr

/-- Modelled from the spec: the template `FindField(val, left, right, insert_pos)` is
declared in `script_object.h` and defined elsewhere: a binary search of the slots
`left..right` that returns the matching field, or the insertion position on a miss.  The
three-way comparison `cmp` is the header's `FieldType::CompareKey`.  The first argument
bounds the number of iterations. -/
def FindFieldIn (w : Nat) (cmp : FieldType → Option Int) (o : Object) :
    Nat → Int → Int → Option FindResult
  | 0, _, _ => none
  | fuel + 1, left, right =>
    if left ≤ right then
      let mid := (wrapS w (left + right)).tdiv 2
      match o.fieldAt mid with
      | none => none
      | some f =>
        match cmp f with
        | none => none
        | some result =>
          if result < 0 then FindFieldIn w cmp o fuel left (mid - 1)
          else if 0 < result then FindFieldIn w cmp o fuel (mid + 1) right
          else some { field := some mid, insert_pos := mid }
    else some { field := none, insert_pos := left }

/-- Iterations that always suffice for a binary search of `left..right`. -/
def searchFuel (left right : Int) : Nat := (right - left + 1).toNat + 1

/-- Modelled from the spec: `FindField(key_type, key, insert_pos)` is declared in
`script_object.h` and defined elsewhere: the search is restricted to the zone matching
the key's kind (integer keys first, then object keys, then string keys). -/
def FindField (w : Nat) (o : Object) (key_type : SymbolType) (key : KeyType) :
    Option FindResult :=
  if key_type = .SYM_STRING then
    match key.s? with
    | none => none
    | some val =>
      FindFieldIn w (fun f => f.CompareKeyStr val) o
        (searchFuel o.mKeyOffsetString (o.mFieldCount - 1))
        o.mKeyOffsetString (o.mFieldCount - 1)
  else
    let left := if key_type = .SYM_INTEGER then mKeyOffsetInt else o.mKeyOffsetObject
    let right :=
      if key_type = .SYM_INTEGER then o.mKeyOffsetObject - 1 else o.mKeyOffsetString - 1
    match key.i? with
    | none => none
    | some val =>
      FindFieldIn w (fun f => f.CompareKeyInt w val) o (searchFuel left right) left right

/-- Modelled from the spec: `FindField(key_token, aBuf, key_type, key, insert_pos)` is
declared in `script_object.h` and defined elsewhere.  Key-kind classification: an integer
token is an integer key, an object token an object key, and a text is integer-typed iff it
is a fully-formed decimal integer, otherwise string-typed (a float goes by its text). -/
def classifyKey (env : Env) (key_token : ExprTokenType) : SymbolType × KeyType :=
  match key_token with
  | .SYM_INTEGER v => (.SYM_INTEGER, .i (wrapS env.w v))
  | .SYM_OBJECT a => (.SYM_OBJECT, .p a)
  | .SYM_STRING t =>
    if IsNumeric t = .SYM_INTEGER then (.SYM_INTEGER, .i (ATOI env.w t)) else (.SYM_STRING, .s t)
  | .SYM_FLOAT d => (.SYM_STRING, .s (env.ftoa d))

/-- Modelled from the spec: `SetInternalCapacity` is declared in `script_object.h` and
defined elsewhere: it reallocates the field array to the new capacity and reports
failure, changing nothing, when the allocator cannot satisfy the request. -/
def SetInternalCapacity (env : Env) (o : Object) (new_capacity : Int) : Bool × Object :=
  if env.alloc new_capacity then
    (true, { o with mFields := some o.fields, mFieldCountMax := new_capacity })
  else (false, o)

/-- Source: `bool Expand() { return SetInternalCapacity(mFieldCountMax ? mFieldCountMax * 2 : 4); }` -/
def Expand (env : Env) (o : Object) : Bool × Object :=
  SetInternalCapacity env o
    (if o.mFieldCountMax ≠ 0 then wrapS env.w (o.mFieldCountMax * 2) else 4)

/-- Modelled from the spec: `Insert(key_type, key, at)` is declared in `script_object.h`
and defined elsewhere: it grows the capacity (doubling) if exhausted, shifts the field
array at the insertion position, adjusts the two boundary counters and the field count,
and returns the new field (`NULL`, here an inner `none`, when out of memory). -/
def Insert (env : Env) (o : Object) (key_type : SymbolType) (key : KeyType) (at_ : Int) :
    Option (Option Int × Object) :=
  let grown := if o.mFieldCount = o.mFieldCountMax then Expand env o else (true, o)
  if grown.1 = false then some (none, o)
  else
    let o1 := grown.2
    let dupOk :=
      match key_type, key with
      | .SYM_STRING, .s t => env.strdup t
      | _, _ => true
    if dupOk = false then some (none, o1)
    else if 0 ≤ at_ ∧ at_ ≤ o1.mFieldCount ∧ at_.toNat ≤ o1.fields.length then
      let field : FieldType := { value := .SYM_STRING [], key := key }
      let fs := o1.fields.take at_.toNat ++ field :: o1.fields.drop at_.toNat
      let kS := if key_type ≠ .SYM_STRING then o1.mKeyOffsetString + 1 else o1.mKeyOffsetString
      let kO :=
        if key_type ≠ .SYM_STRING ∧ key_type ≠ .SYM_OBJECT then o1.mKeyOffsetObject + 1
        else o1.mKeyOffsetObject
      some (some at_, { o1 with mFields := some fs, mFieldCount := o1.mFieldCount + 1,
                                mKeyOffsetObject := kO, mKeyOffsetString := kS })
    else none

/-- The statement `return field->Assign(aValue);` for the field at `index`. -/
def assignAt (env : Env) (o : Object) (index : Int) (aValue : ExprTokenType) :
    Option (Bool × Object) :=
  match o.fieldAt index with
  | none => none
  | some f =>
    let r := f.Assign env aValue
    some (r.1, { o with mFields := some (o.fields.set index.toNat r.2) })

/-- Source: `bool SetItem(ExprTokenType &aKey, ExprTokenType &aValue)`:
```
FieldType *field = FindField(aKey, buf, key_type, key, insert_pos);
if (!field && !(field = Insert(key_type, key, insert_pos))) return false;
return field->Assign(aValue);
``` -/
def SetItem (env : Env) (o : Object) (aKey aValue : ExprTokenType) : Option (Bool × Object) :=
  let k := classifyKey env aKey
  match FindField env.w o k.1 k.2 with
  | none => none
  | some r =>
    match r.field with
    | some index => assignAt env o index aValue
    | none =>
      match Insert env o k.1 k.2 r.insert_pos with
      | none => none
      | some (none, o1) => some (false, o1)
      | some (some index, o1) => assignAt env o1 index aValue

/-- Source: `bool SetItem(LPTSTR aKey, ExprTokenType &aValue) { return SetItem(ExprTokenType(aKey), aValue); }` -/
def SetItemStr (env : Env) (o : Object) (aKey : List Char) (aValue : ExprTokenType) :
    Option (Bool × Object) :=
  SetItem env o (.SYM_STRING aKey) aValue

/-- The first statements of `GetItem`: the kind and the key under which the text is
looked up.
```
SymbolType key_type = IsNumeric(aKey, FALSE, FALSE, FALSE);
if (key_type == SYM_INTEGER) key.i = ATOI(aKey); else key.s = aKey;
``` -/
def getItemKey (w : Nat) (aKey : List Char) : SymbolType × KeyType :=
  let key_type := IsNumeric aKey
  (key_type, if key_type = .SYM_INTEGER then .i (ATOI w aKey) else .s aKey)

/-- The last statements of `GetItem`, given the outcome of the search:
```
if (!field) return false;
field->ToToken(aToken); return true;
``` -/
def getItemResult (o : Object) (aToken : ExprTokenType) (found : Option FindResult) :
    Option (Bool × ExprTokenType) :=
  match found with
  | none => none
  | some r =>
    match r.field with
    | none => some (false, aToken)
    | some index => (o.fieldAt index).map (fun f => (true, f.ToToken))

/-- Source: `bool GetItem(ExprTokenType &aToken, LPTSTR aKey)`:
```
SymbolType key_type = IsNumeric(aKey, FALSE, FALSE, FALSE);
if (key_type == SYM_INTEGER) key.i = ATOI(aKey); else key.s = aKey;
FieldType *field = FindField(key_type, key, insert_pos);
if (!field) return false;
field->ToToken(aToken); return true;
```
The result is the returned flag and the content of `aToken` afterwards. -/
def GetItem (env : Env) (o : Object) (aToken : ExprTokenType) (aKey : List Char) :
    Option (Bool × ExprTokenType) :=
  let k := getItemKey env.w aKey
  getItemResult o aToken (FindField env.w o k.1 k.2)

/-- The caller's variables that `GetNextItem` receives by reference. -/
structure Cursor where
  aToken : ExprTokenType
  aOffset : Int
  aKey : Int
deriving DecidableEq, Repr

/-- Source: `inline bool GetNextItem(ExprTokenType &aToken, INT_PTR &aOffset, INT_PTR &aKey)`:
```
if (++aOffset >= mKeyOffsetObject) return false;
FieldType &field = mFields[aOffset];
aKey = field.key.i; field.ToToken(aToken); return true;
``` -/
def GetNextItem (w : Nat) (o : Object) (c : Cursor) : Option (Bool × Cursor) :=
  let aOffset := wrapS w (c.aOffset + 1)
  if o.mKeyOffsetObject ≤ aOffset then some (false, { c with aOffset := aOffset })
  else
    match o.fieldAt aOffset with
    | none => none
    | some field =>
      match field.key.i? with
      | none => none
      | some k => some (true, { aToken := field.ToToken, aOffset := aOffset, aKey := k })

/-- The results of `k` consecutive `GetNextItem` calls on the same variables, in call
order (undefined as soon as one call is). -/
def GetNextItemN (w : Nat) (o : Object) : Nat → Cursor → Option (List (Bool × Cursor))
  | 0, _ => some []
  | k + 1, c =>
    match GetNextItem w o c with
    | none => none
    | some r => (GetNextItemN w o k r.2).map (fun rest => r :: rest)

/-- Source: `inline bool GetItemOffset(ExprTokenType &aToken, INT_PTR aOffset)`:
```
if (aOffset >= mKeyOffsetObject) return false;
mFields[aOffset].ToToken(aToken); return true;
``` -/
def GetItemOffset (o : Object) (aToken : ExprTokenType) (aOffset : Int) :
    Option (Bool × ExprTokenType) :=
  if o.mKeyOffsetObject ≤ aOffset then some (false, aToken)
  else (o.fieldAt aOffset).map (fun f => (true, f.ToToken))

/-- Source: `int GetNumericItemCount() { return (int)mKeyOffsetObject; }` -/
def GetNumericItemCount (o : Object) : Int := toInt32 o.mKeyOffsetObject

/-- Source: `void ReduceKeys(INT_PTR aAmount)`:
`for (IndexType i = 0; i < mKeyOffsetObject; ++i) mFields[i].key.i -= aAmount;` -/
def ReduceKeys (w : Nat) (o : Object) (aAmount : Int) : Option Object :=
  (List.range o.mKeyOffsetObject.toNat).foldlM
    (fun (acc : Object) (i : Nat) =>
      match acc.fieldAt i with
      | none => none
      | some f =>
        match f.key.i? with
        | none => none
        | some k =>
          some { acc with
            mFields := some (acc.fields.set i { f with key := .i (wrapS w (k - aAmount)) }) })
    o

/-- Source: `int MinIndex() { return (mKeyOffsetInt < mKeyOffsetObject) ? (int)mFields[0].key.i : 0; }` -/
def MinIndex (o : Object) : Option Int :=
  if mKeyOffsetInt < o.mKeyOffsetObject then
    (o.fieldAt 0).bind (fun f => f.key.i?.map toInt32)
  else some 0

/-- Source: `int MaxIndex() { return (mKeyOffsetInt < mKeyOffsetObject) ? (int)mFields[mKeyOffsetObject-1].key.i : 0; }` -/
def MaxIndex (o : Object) : Option Int :=
  if mKeyOffsetInt < o.mKeyOffsetObject then
    (o.fieldAt (o.mKeyOffsetObject - 1)).bind (fun f => f.key.i?.map toInt32)
  else some 0

/-- Source: `int Count() { return (int)mFieldCount; }` -/
def Count (o : Object) : Int := toInt32 o.mFieldCount

/-- Source: `bool HasNonnumericKeys() { return mKeyOffsetObject < mFieldCount; }` -/
def HasNonnumericKeys (o : Object) : Bool := decide (o.mKeyOffsetObject < o.mFieldCount)

/-- Source: `void SetBase(IObject *aNewBase)`:
```
if (aNewBase) aNewBase->AddRef();
if (mBase) mBase->Release();
mBase = aNewBase;
``` -/
def SetBase (o : Object) (aNewBase : Int) : Object × List Effect :=
  let e1 := if aNewBase ≠ 0 then [Effect.AddRef aNewBase] else []
  let e2 := if o.mBase ≠ 0 then [Effect.Release o.mBase] else []
  ({ o with mBase := aNewBase }, e1 ++ e2)

/-- Source: `IObject *Base() { return mBase; }` -/
def Base (o : Object) : Int := o.mBase

end Object

namespace MetaObject

/-- A loop `for (; i >= bound; --i) body(i);`: the final `i` and the calls made.  The
first argument bounds the number of iterations. -/
def downLoop (body : Int → Option Effect) (bound : Int) : Nat → Int → Option (Int × List Effect)
  | 0, i => if bound ≤ i then none else some (i, [])
  | fuel + 1, i =>
    if bound ≤ i then
      match body i with
      | none => none
      | some e => (downLoop body bound fuel (i - 1)).map (fun r => (r.1, e :: r.2))
    else some (i, [])

/-- The loop `while (mFieldCount) mFields[--mFieldCount].Free();` started with the
given `mFieldCount`: the calls made. -/
def freeValues (o : Object) : Nat → Int → Option (List Effect)
  | 0, n => if n ≠ 0 then none else some []
  | fuel + 1, n =>
    if n ≠ 0 then
      match o.fieldAt (n - 1) with
      | none => none
      | some _ => (freeValues o fuel (n - 1)).map (fun r => Effect.Free_value (n - 1) :: r)
    else some []

/-- Source: `void MetaObject::Free()`:
```
if (mFields) {
  if (mFieldCount) {
    IndexType i = mFieldCount - 1;
    for (; i >= mKeyOffsetString; --i) free(mFields[i].key.s);
    for (; i >= mKeyOffsetObject; --i) mFields[i].key.p->Release();
    while (mFieldCount) mFields[--mFieldCount].Free();
  }
  free(mFields); mFields = NULL; mFieldCountMax = 0;
}
```
The result is the object afterwards and the calls made, in order. -/
def Free (o : Object) : Option (Object × List Effect) :=
  match o.mFields with
  | none => some (o, [])
  | some _ =>
    if o.mFieldCount ≠ 0 then
      let fuel := o.mFieldCount.toNat + 1
      match downLoop (fun i => (o.fieldAt i).bind (fun f => f.key.s?.map (Effect.free_key i)))
          o.mKeyOffsetString fuel (o.mFieldCount - 1) with
      | none => none
      | some r1 =>
        match downLoop (fun i => (o.fieldAt i).bind (fun f => f.key.p?.map (Effect.Release_key i)))
            o.mKeyOffsetObject fuel r1.1 with
        | none => none
        | some r2 =>
          match freeValues o fuel o.mFieldCount with
          | none => none
          | some e3 =>
            some ({ o with mFields := none, mFieldCount := 0, mFieldCountMax := 0 },
              r1.2 ++ r2.2 ++ e3 ++ [Effect.free_mFields])
    else some ({ o with mFields := none, mFieldCountMax := 0 }, [Effect.free_mFields])

end MetaObject

namespace Object

/-- The zone boundaries are ordered: `0 <= mKeyOffsetObject <= mKeyOffsetString <= mFieldCount`. -/
def ZoneOrder (o : Object) : Prop :=
  0 ≤ o.mKeyOffsetObject ∧ o.mKeyOffsetObject ≤ o.mKeyOffsetString ∧
    o.mKeyOffsetString ≤ o.mFieldCount

instance (o : Object) : Decidable (ZoneOrder o) := by
  unfold ZoneOrder; infer_instance

/-- The fields of the integer zone, indices `[0, mKeyOffsetObject)`. -/
def intZone (o : Object) : List FieldType := o.fields.take o.mKeyOffsetObject.toNat

/-- The keys stored in the integer zone, in index order (the member `i` of each key,
0 where it cannot be read). -/
def intKeys (o : Object) : List Int := (intZone o).map (fun f => f.key.i?.getD 0)

/-- The zone invariant as far as the integer zone is concerned: the boundaries are
ordered and are valid `w`-bit indices into initialised fields, every field of
`[0, mKeyOffsetObject)` carries an integer key in the `w`-bit range, and those keys are
strictly ascending. -/
def ZoneInv (w : Nat) (o : Object) : Prop :=
  ZoneOrder o ∧
  o.mFieldCount ≤ o.fields.length ∧
  o.mFieldCount < ((2 ^ (w - 1) : Nat) : Int) ∧
  (∀ f ∈ intZone o, f.key.isInt = true) ∧
  (∀ k ∈ intKeys o, InRangeS w k) ∧
  (intKeys o).Pairwise (fun a b => a < b)

instance (w : Nat) (o : Object) : Decidable (ZoneInv w o) := by
  unfold ZoneInv; infer_instance

/-- The states reachable from a newly constructed `Object` by `SetItem`, `ReduceKeys`,
`SetBase` and `MetaObject::Free`. -/
inductive Reachable (env : Env) : Object → Prop where
  | new : Reachable env Object.new
  | SetItem (o o1 : Object) (aKey aValue : ExprTokenType) (ok : Bool) :
      Reachable env o → Object.SetItem env o aKey aValue = some (ok, o1) → Reachable env o1
  | ReduceKeys (o o1 : Object) (aAmount : Int) :
      Reachable env o → Object.ReduceKeys env.w o aAmount = some o1 → Reachable env o1
  | SetBase (o : Object) (aNewBase : Int) :
      Reachable env o → Reachable env (Object.SetBase o aNewBase).1
  | Free (o o1 : Object) (calls : List Effect) :
      Reachable env o → MetaObject.Free o = some (o1, calls) → Reachable env o1

end Object

/-! ## Sample environments and objects -/

/-- A 32-bit build (`INT_PTR` has 32 bits) in which every allocation succeeds. -/
def env32 : Env :=
  { w := 32, alloc := fun _ => true, strdup := fun _ => true, ftoa := fun _ => [] }

/-- A 64-bit build (`INT_PTR` has 64 bits) in which every allocation succeeds. -/
def env64 : Env :=
  { w := 64, alloc := fun _ => true, strdup := fun _ => true, ftoa := fun _ => [] }

namespace Object

/-- The object after `SetItem(1, "a")` on a new object. -/
def sampleOne : Object :=
  { toObjectBase := ObjectBase.new, mBase := 0,
    mFields := some [{ value := .SYM_STRING "a".toList, key := .i 1 }],
    mFieldCount := 1, mFieldCountMax := 4, mKeyOffsetObject := 1, mKeyOffsetString := 1 }

/-- The object `sampleOne` after `MetaObject::Free`. -/
def sampleOneFreed : Object :=
  { toObjectBase := ObjectBase.new, mBase := 0, mFields := none,
    mFieldCount := 0, mFieldCountMax := 0, mKeyOffsetObject := 1, mKeyOffsetString := 1 }

/-- The object after `SetItem(1073741824, "a")` on a new object. -/
def sampleFar1 : Object :=
  { toObjectBase := ObjectBase.new, mBase := 0,
    mFields := some [{ value := .SYM_STRING "a".toList, key := .i 1073741824 }],
    mFieldCount := 1, mFieldCountMax := 4, mKeyOffsetObject := 1, mKeyOffsetString := 1 }

/-- The object `sampleFar1` after `SetItem(-1073741824, "b")`. -/
def sampleFar2 : Object :=
  { toObjectBase := ObjectBase.new, mBase := 0,
    mFields := some [{ value := .SYM_STRING "b".toList, key := .i (-1073741824) },
                     { value := .SYM_STRING "a".toList, key := .i 1073741824 }],
    mFieldCount := 2, mFieldCountMax := 4, mKeyOffsetObject := 2, mKeyOffsetString := 2 }

/-- An object whose only key is the integer 4294967296 (a 64-bit build). -/
def sampleBig : Object :=
  { toObjectBase := ObjectBase.new, mBase := 0,
    mFields := some [{ value := .SYM_STRING "a".toList, key := .i 4294967296 }],
    mFieldCount := 1, mFieldCountMax := 4, mKeyOffsetObject := 1, mKeyOffsetString := 1 }

/-- An array holding the integer keys 1, 2, 3 and one string key. -/
def sampleArray : Object :=
  { toObjectBase := ObjectBase.new, mBase := 0,
    mFields := some [{ value := .SYM_STRING "a".toList, key := .i 1 },
                     { value := .SYM_STRING "b".toList, key := .i 2 },
                     { value := .SYM_STRING "c".toList, key := .i 3 },
                     { value := .SYM_INTEGER 7, key := .s "x".toList }],
    mFieldCount := 4, mFieldCountMax := 4, mKeyOffsetObject := 3, mKeyOffsetString := 3 }

end Object

namespace MetaObject

/-- Source: `ULONG STDMETHODCALLTYPE AddRef() { return 1; }` (the returned value and the
object afterwards). -/
def AddRef (o : Object) : Nat × Object := (1, o)

/-- Source: `ULONG STDMETHODCALLTYPE Release() { return 1; }` (the returned value, the
object afterwards, and the number of `Delete` calls the body makes). -/
def Release (o : Object) : Nat × Object × Nat := (1, o, 0)

/-- Source: `bool Delete() { return false; }` -/
def Delete (o : Object) : Bool × Object := (false, o)

/-- One reference-counting call on the meta-object. -/
inductive RefCall where
  | AddRef
  | Release
deriving DecidableEq, Repr

/-- A sequence of `AddRef`/`Release` calls on the meta-object: the returned values in
call order, the object afterwards, and the number of `Delete` calls made. -/
def runCalls : List RefCall → Object → List Nat × Object × Nat
  | [], o => ([], o, 0)
  | RefCall.AddRef :: rest, o =>
    let r := AddRef o
    let t := runCalls rest r.2
    (r.1 :: t.1, t.2.1, t.2.2)
  | RefCall.Release :: rest, o =>
    let r := Release o
    let t := runCalls rest r.2.1
    (r.1 :: t.1, t.2.1, r.2.2 + t.2.2)

/-- The `free` calls on string keys that `Free` is to make: indices
`mFieldCount-1` down to `mKeyOffsetString`. -/
def stringKeyFrees (o : Object) : List Effect :=
  (List.range (o.mFieldCount - o.mKeyOffsetString).toNat).reverse.filterMap
    (fun (t : Nat) => (o.fieldAt (o.mKeyOffsetString + (t : Int))).bind
      (fun f => f.key.s?.map (Effect.free_key (o.mKeyOffsetString + (t : Int)))))

/-- The `Release` calls on object keys that `Free` is to make: indices
`mKeyOffsetString-1` down to `mKeyOffsetObject`. -/
def objectKeyReleases (o : Object) : List Effect :=
  (List.range (o.mKeyOffsetString - o.mKeyOffsetObject).toNat).reverse.filterMap
    (fun (t : Nat) => (o.fieldAt (o.mKeyOffsetObject + (t : Int))).bind
      (fun f => f.key.p?.map (Effect.Release_key (o.mKeyOffsetObject + (t : Int)))))

/-- The `FieldType::Free` calls on values that `Free` is to make: indices
`mFieldCount-1` down to 0. -/
def valueFrees (o : Object) : List Effect :=
  (List.range o.mFieldCount.toNat).reverse.map (fun (t : Nat) => Effect.Free_value (t : Int))

end MetaObject

namespace Object

/-- Every field of the object zone `[mKeyOffsetObject, mKeyOffsetString)` carries an
object key and every field of the string zone `[mKeyOffsetString, mFieldCount)` a string
key. -/
def ZoneTyped (o : Object) : Prop :=
  (∀ f ∈ (o.fields.take o.mKeyOffsetString.toNat).drop o.mKeyOffsetObject.toNat,
    f.key.p?.isSome = true) ∧
  (∀ f ∈ (o.fields.take o.mFieldCount.toNat).drop o.mKeyOffsetString.toNat,
    f.key.s?.isSome = true)

instance (o : Object) : Decidable (ZoneTyped o) := by
  unfold ZoneTyped; infer_instance

/-- An object with two integer keys, one object key and two string keys. -/
def sampleMixed : Object :=
  { toObjectBase := ObjectBase.new, mBase := 0,
    mFields := some [{ value := .SYM_STRING "a".toList, key := .i 1 },
                     { value := .SYM_INTEGER 5, key := .i 2 },
                     { value := .SYM_FLOAT 3, key := .p 4096 },
                     { value := .SYM_INTEGER 7, key := .s "x".toList },
                     { value := .SYM_OBJECT 8192, key := .s "y".toList }],
    mFieldCount := 5, mFieldCountMax := 8, mKeyOffsetObject := 2, mKeyOffsetString := 3 }

end Object

/-- The members of `class Struct` that `Struct::Expand` reads: the field count and the
capacity, both of type `IndexType` = `INT64`. -/
structure Struct where
  mFieldCount : Int
  mFieldCountMax : Int
deriving DecidableEq, Repr

namespace Struct

/-- Source: `bool Expand() { return SetInternalCapacity(mFieldCountMax ? mFieldCountMax * 2 : 4); }`
in `class Struct`; `SetInternalCapacity` is declared in the header and defined elsewhere,
it is a parameter here. -/
def Expand (SetInternalCapacity : Struct → Int → Bool × Struct) (s : Struct) : Bool × Struct :=
  SetInternalCapacity s (if s.mFieldCountMax ≠ 0 then wrapS 64 (s.mFieldCountMax * 2) else 4)

end Struct

namespace Object

/-- The field `f` with its integer key reduced by `aAmount`, the difference stored into the
`w`-bit member `key.i`; everything else of the field is kept. -/
def reducedField (w : Nat) (aAmount : Int) (f : FieldType) : FieldType :=
  { f with key := .i (wrapS w (f.key.i?.getD 0 - aAmount)) }

/-- What `ReduceKeys(aAmount)` is to compute, stated on the whole object: the fields of the
integer zone `[0, mKeyOffsetObject)` have their keys reduced by `aAmount`, all other fields
and all other members are kept. -/
def keysReduced (w : Nat) (o : Object) (aAmount : Int) : Object :=
  { o with mFields := o.mFields.map (fun fs =>
      (fs.take o.mKeyOffsetObject.toNat).map (reducedField w aAmount) ++
        fs.drop o.mKeyOffsetObject.toNat) }

/-- The integer zone lies within the initialised slots and holds integer keys only. -/
def IntZoneDefined (o : Object) : Prop :=
  o.mKeyOffsetObject.toNat ≤ o.fields.length ∧ ∀ f ∈ intZone o, f.key.isInt = true

instance (o : Object) : Decidable (IntZoneDefined o) := by
  unfold IntZoneDefined; infer_instance

/-- An object holding the integer keys 0 and 2147483647 (the largest 32-bit key) and one
string key. -/
def sampleEdge : Object :=
  { toObjectBase := ObjectBase.new, mBase := 0,
    mFields := some [{ value := .SYM_STRING "a".toList, key := .i 0 },
                     { value := .SYM_STRING "b".toList, key := .i 2147483647 },
                     { value := .SYM_INTEGER 7, key := .s "x".toList }],
    mFieldCount := 3, mFieldCountMax := 4, mKeyOffsetObject := 2, mKeyOffsetString := 2 }

end Object

namespace ObjectBase

/-- The effect of a call log on the `ObjectBase` living at address `target`: its `AddRef`
and `Release` calls are applied in order (`Delete` being the hook), calls on other objects
are skipped.  The result is the object afterwards and the number of times `Release` took
its `mRefCount == 1` branch. -/
def applyCalls (hook : DeleteHook) (target : Int) : List Effect → ObjectBase → ObjectBase × Nat
  | [], s => (s, 0)
  | Effect.AddRef x :: rest, s =>
    if x = target then applyCalls hook target rest (AddRef s).2
    else applyCalls hook target rest s
  | Effect.Release x :: rest, s =>
    if x = target then
      let r := Release hook s
      let t := applyCalls hook target rest r.obj
      (t.1, r.deleteCalls + t.2)
    else applyCalls hook target rest s
  | _ :: rest, s => applyCalls hook target rest s

end ObjectBase

/-! ## hook.h: message translation and key attributes -/

namespace Hook

/-- The constants of the Windows headers and the global that the macros of `hook.h` read;
none of them is defined in `hook.h`.  `ptrBits` is the width of `WPARAM` and `LPARAM`. -/
structure WinEnv where
  WM_USER : Nat
  WM_COMMNOTIFY : Nat
  g_hWnd : Nat
  ptrBits : Nat
deriving DecidableEq, Repr

/-- The Win32 values: `WM_USER = 0x0400`, `WM_COMMNOTIFY = 0x0044`, on a 64-bit build. -/
def win64 : WinEnv :=
  { WM_USER := 0x0400, WM_COMMNOTIFY := 0x0044, g_hWnd := 0x10000, ptrBits := 64 }

/-- Source: `enum UserMessages {AHK_HOOK_HOTKEY = WM_USER, AHK_HOTSTRING, AHK_USER_MENU,
AHK_DIALOG, ...}`. -/
def AHK_HOOK_HOTKEY (e : WinEnv) : Nat := e.WM_USER

/-- The second enumerator of `UserMessages`. -/
def AHK_HOTSTRING (e : WinEnv) : Nat := AHK_HOOK_HOTKEY e + 1

/-- The third enumerator of `UserMessages`. -/
def AHK_USER_MENU (e : WinEnv) : Nat := AHK_HOTSTRING e + 1

/-- The fourth enumerator of `UserMessages`. -/
def AHK_DIALOG (e : WinEnv) : Nat := AHK_USER_MENU e + 1

/-- Source:
```
#define TRANSLATE_AHK_MSG(msg, wparam) \
  if (msg == WM_COMMNOTIFY) { msg = (UINT)wparam; wparam = 0; }
```
on the variables `msg` (a `UINT`) and `wparam` (a `WPARAM`): their values afterwards. -/
def TRANSLATE_AHK_MSG (e : WinEnv) (msg wparam : Nat) : Nat × Nat :=
  if msg = e.WM_COMMNOTIFY then (wparam % 2 ^ 32, 0) else (msg, wparam)

/-- A message as `PostMessage` queues it. -/
structure PostedMessage where
  hwnd : Nat
  message : Nat
  wParam : Nat
  lParam : Int
deriving DecidableEq, Repr

/-- The Win32 call `PostMessage(hWnd, Msg, wParam, lParam)`: the message it queues, the
arguments converted to the parameter types `UINT`, `WPARAM` (unsigned, `ptrBits` wide) and
`LPARAM` (signed, `ptrBits` wide). -/
def PostMessage (e : WinEnv) (hWnd : Nat) (Msg : Int) (wParam lParam : Int) : PostedMessage :=
  { hwnd := hWnd, message := (Msg % ((2 ^ 32 : Nat) : Int)).toNat,
    wParam := (wParam % ((2 ^ e.ptrBits : Nat) : Int)).toNat,
    lParam := wrapS e.ptrBits lParam }

/-- Source: `#define ASK_INSTANCE_TO_CLOSE(hwnd, reason) PostMessage(hwnd, WM_COMMNOTIFY, reason, 0);` -/
def ASK_INSTANCE_TO_CLOSE (e : WinEnv) (hwnd : Nat) (reason : Int) : PostedMessage :=
  PostMessage e hwnd e.WM_COMMNOTIFY reason 0

/-- Source: `#define POST_AHK_DIALOG(timeout) PostMessage(g_hWnd, WM_COMMNOTIFY, AHK_DIALOG, (LPARAM)timeout);` -/
def POST_AHK_DIALOG (e : WinEnv) (timeout : Int) : PostedMessage :=
  PostMessage e e.g_hWnd e.WM_COMMNOTIFY (AHK_DIALOG e) (wrapS e.ptrBits timeout)

/-- The receiving side: `TRANSLATE_AHK_MSG(msg.message, msg.wParam)` on a queued message. -/
def translatePosted (e : WinEnv) (m : PostedMessage) : Nat × Nat :=
  TRANSLATE_AHK_MSG e m.message m.wParam

end Hook

namespace Hook

/-- Source: `struct vk_hotkey { vk_type vk; HotkeyIDType id_with_flags; };` -/
structure vk_hotkey where
  vk : Nat
  id_with_flags : Nat
deriving DecidableEq, Repr

/-- Source: `struct sc_hotkey { sc_type sc; HotkeyIDType id_with_flags; };` -/
structure sc_hotkey where
  sc : Nat
  id_with_flags : Nat
deriving DecidableEq, Repr

/-- Source: `struct key_type`, member by member in declaration order.  `UCHAR` members are
naturals (below 256 in a well-formed item), `char was_just_used` an integer, the pointer
`pForceToggle` an address, the two arrays lists. -/
structure key_type where
  pForceToggle : Nat
  as_modifiersLR : Nat
  hotkey_to_fire_upon_release : Nat
  used_as_prefix : Nat
  used_as_suffix : Bool
  used_as_key_up : Bool
  no_suppress : Nat
  is_down : Bool
  it_put_alt_down : Bool
  it_put_shift_down : Bool
  down_performed_action : Bool
  hotkey_down_was_suppressed : Bool
  was_just_used : Int
  sc_takes_precedence : Bool
  nModifierVK : Nat
  nModifierSC : Nat
  ModifierVK : List vk_hotkey
  ModifierSC : List sc_hotkey
deriving DecidableEq, Repr

/-- Source:
```
#define RESET_KEYTYPE_ATTRIB(item) \
{ item.nModifierVK = 0; item.nModifierSC = 0; item.used_as_prefix = 0; \
  item.used_as_suffix = false; item.used_as_key_up = false; \
  item.no_suppress &= NO_SUPPRESS_STATES; item.sc_takes_precedence = false; }
```
`NO_SUPPRESS_STATES` is defined outside `hook.h` and is a parameter; the result of `&=` is
stored into the `UCHAR` member. -/
def RESET_KEYTYPE_ATTRIB (NO_SUPPRESS_STATES : Nat) (item : key_type) : key_type :=
  { item with
    nModifierVK := 0
    nModifierSC := 0
    used_as_prefix := 0
    used_as_suffix := false
    used_as_key_up := false
    no_suppress := (item.no_suppress &&& NO_SUPPRESS_STATES) % 2 ^ 8
    sc_takes_precedence := false }

/-- A key that is held down, used as prefix and suffix, with two modifier entries and the
`no_suppress` flags 7. -/
def sampleKey : key_type :=
  { pForceToggle := 4096, as_modifiersLR := 2, hotkey_to_fire_upon_release := 9,
    used_as_prefix := 1, used_as_suffix := true, used_as_key_up := true, no_suppress := 7,
    is_down := true, it_put_alt_down := false, it_put_shift_down := true,
    down_performed_action := true, hotkey_down_was_suppressed := false, was_just_used := 2,
    sc_takes_precedence := true, nModifierVK := 1, nModifierSC := 1,
    ModifierVK := [{ vk := 65, id_with_flags := 3 }],
    ModifierSC := [{ sc := 30, id_with_flags := 4 }] }

end Hook

/-! # Theorems -/

/-! ## ObjectBase: reference counting -/

namespace ObjectBase

theorem release_not_last (hook : DeleteHook) (s : ObjectBase) (h1 : 1 < s.mRefCount)
    (hU : s.mRefCount < ULONG_RANGE) :
    Release hook s =
      { ret := s.mRefCount - 1, obj := { s with mRefCount := s.mRefCount - 1 }, deleteCalls := 0 } := by
  have hne : s.mRefCount ≠ 1 := by omega
  have hmod : (s.mRefCount + ULONG_RANGE - 1) % ULONG_RANGE = s.mRefCount - 1 := by
    have : s.mRefCount + ULONG_RANGE - 1 = (s.mRefCount - 1) + ULONG_RANGE := by omega
    rw [this, Nat.add_mod_right, Nat.mod_eq_of_lt (by omega)]
  simp [Release, hne, hmod]

theorem releaseN_not_last (hook : DeleteHook) :
    ∀ (k : Nat) (s : ObjectBase), k < s.mRefCount → s.mRefCount < ULONG_RANGE →
      ReleaseN hook k s =
        ((List.range k).map (fun i => s.mRefCount - 1 - i),
          { s with mRefCount := s.mRefCount - k }, 0) := by
  intro k
  induction k with
  | zero => intro s _ _; simp [ReleaseN]
  | succ k ih =>
    intro s hk hU
    have h1 : 1 < s.mRefCount := by omega
    have hstep := release_not_last hook s h1 hU
    have hrec := ih { s with mRefCount := s.mRefCount - 1 } (by simp; omega) (by simp; omega)
    simp only [ReleaseN, hstep, hrec]
    refine Prod.ext ?_ (Prod.ext ?_ ?_)
    · simp only [List.range_succ_eq_map, List.map_cons, List.map_map]
      refine congrArg₂ _ (by simp) ?_
      apply List.map_congr_left
      intro i _
      simp only [Function.comp]
      omega
    · simp only
      congr 1
      omega
    · simp

theorem releaseN_succ_last (hook : DeleteHook) :
    ∀ (k : Nat) (s : ObjectBase),
      ReleaseN hook (k + 1) s =
        ((ReleaseN hook k s).1 ++ [(Release hook (ReleaseN hook k s).2.1).ret],
          (Release hook (ReleaseN hook k s).2.1).obj,
          (ReleaseN hook k s).2.2 + (Release hook (ReleaseN hook k s).2.1).deleteCalls) := by
  intro k
  induction k with
  | zero => intro s; simp [ReleaseN]
  | succ k ih =>
    intro s
    have h := ih (Release hook s).obj
    rw [ReleaseN, h]
    simp only [ReleaseN, List.cons_append, Nat.add_assoc]

/-- C1: with reference count `N > 1` and a `Delete` hook that destroys the object and
returns true, the first `N-1` calls of `Release` return `N-1, N-2, ..., 1` in that order
without invoking `Delete` (the object is still alive with count 1), and the `N`-th call
invokes `Delete` exactly once, returns 0 and leaves the object destroyed. -/
theorem C1_release_tears_down_on_last (N : Nat) (s : ObjectBase) (hook : DeleteHook)
    (hN : 1 < N) (hc : s.mRefCount = N) (hU : N < ULONG_RANGE)
    (hhook : ∀ t, (hook t).1 = true ∧ (hook t).2.deleted = true) :
    (ReleaseN hook (N - 1) s).1 = (List.range (N - 1)).map (fun i => N - 1 - i) ∧
    (ReleaseN hook (N - 1) s).2.2 = 0 ∧
    (ReleaseN hook (N - 1) s).2.1 = { s with mRefCount := 1 } ∧
    (Release hook (ReleaseN hook (N - 1) s).2.1).ret = 0 ∧
    (Release hook (ReleaseN hook (N - 1) s).2.1).deleteCalls = 1 ∧
    (Release hook (ReleaseN hook (N - 1) s).2.1).obj.deleted = true ∧
    (ReleaseN hook N s).1 = (List.range N).map (fun i => N - 1 - i) ∧
    (ReleaseN hook N s).2.2 = 1 := by
  subst hc
  have hpre := releaseN_not_last hook (s.mRefCount - 1) s (by omega) hU
  have hone : s.mRefCount - (s.mRefCount - 1) = 1 := by omega
  have hlast : Release hook { s with mRefCount := 1 } =
      { ret := 0, obj := (hook { s with mRefCount := 1 }).2, deleteCalls := 1 } := by
    simp [Release, (hhook { s with mRefCount := 1 }).1]
  have hN1 : s.mRefCount = (s.mRefCount - 1) + 1 := by omega
  have hfull := releaseN_succ_last hook (s.mRefCount - 1) s
  rw [← hN1] at hfull
  rw [hfull, hpre, hone]
  refine ⟨rfl, rfl, rfl, ?_, ?_, ?_, ?_, ?_⟩
  · simp [hlast]
  · simp [hlast]
  · simp [hlast, (hhook { s with mRefCount := 1 }).2]
  · simp only [hlast]
    conv_rhs => rw [hN1, List.range_succ, List.map_append]
    simp
  · simp [hlast]

theorem C1_witness :
    (ReleaseN Delete 2 { mRefCount := 3, deleted := false }).1 = [2, 1] ∧
    (ReleaseN Delete 2 { mRefCount := 3, deleted := false }).2.2 = 0 ∧
    (ReleaseN Delete 3 { mRefCount := 3, deleted := false }).1 = [2, 1, 0] ∧
    (ReleaseN Delete 3 { mRefCount := 3, deleted := false }).2.2 = 1 := by
  have h := C1_release_tears_down_on_last 3 { mRefCount := 3, deleted := false } Delete
    (by decide) rfl (by unfold ULONG_RANGE; decide) (fun _ => ⟨rfl, rfl⟩)
  exact ⟨h.1, h.2.1, h.2.2.2.2.2.2.1, h.2.2.2.2.2.2.2⟩

theorem release_one_destroyed (hook : DeleteHook) (s : ObjectBase)
    (h1 : s.mRefCount = 1) (ht : (hook s).1 = true) :
    Release hook s = { ret := 0, obj := (hook s).2, deleteCalls := 1 } := by
  unfold Release
  rw [if_pos h1]
  simp only [ht, if_true]

theorem release_one_declined (hook : DeleteHook) (s : ObjectBase)
    (h1 : s.mRefCount = 1) (hf : (hook s).1 = false) :
    Release hook s =
        { ret := ((hook s).2.mRefCount + ULONG_RANGE - 1) % ULONG_RANGE,
          obj := { (hook s).2 with
            mRefCount := ((hook s).2.mRefCount + ULONG_RANGE - 1) % ULONG_RANGE },
          deleteCalls := 1 } := by
  unfold Release
  rw [if_pos h1]
  simp only [hf, Bool.false_eq_true, if_false]

theorem dec_mod_ulong (c : Nat) (h1 : 1 ≤ c) (hU : c < ULONG_RANGE) :
    (c + ULONG_RANGE - 1) % ULONG_RANGE = c - 1 := by
  have : c + ULONG_RANGE - 1 = (c - 1) + ULONG_RANGE := by omega
  rw [this, Nat.add_mod_right, Nat.mod_eq_of_lt (by omega)]

/-- C2: when `Release` is called with count 1, a hook that reports destruction makes
`Release` return 0; a hook that declines makes `Release` return `c-1` (32-bit arithmetic),
where `c` is the count at the moment the hook returned, and leaves the object exactly as
the hook left it except for that decremented count (no destruction by `Release` itself);
so after a reentrant `AddRef` inside the hook (`c > 1`) the object survives with a count of
at least 1. -/
theorem C2_release_with_count_one (hook : DeleteHook) (s : ObjectBase)
    (h1 : s.mRefCount = 1) (hU : (hook s).2.mRefCount < ULONG_RANGE) :
    (Release hook s).deleteCalls = 1 ∧
    ((hook s).1 = true → (Release hook s).ret = 0 ∧ (Release hook s).obj = (hook s).2) ∧
    ((hook s).1 = false →
      (Release hook s).ret = ((hook s).2.mRefCount + ULONG_RANGE - 1) % ULONG_RANGE ∧
      (Release hook s).obj = { (hook s).2 with mRefCount := (Release hook s).ret } ∧
      (1 ≤ (hook s).2.mRefCount → (Release hook s).ret = (hook s).2.mRefCount - 1) ∧
      (1 < (hook s).2.mRefCount → 1 ≤ (Release hook s).ret)) := by
  refine ⟨?_, ?_, ?_⟩
  · cases hb : (hook s).1
    · rw [release_one_declined hook s h1 hb]
    · rw [release_one_destroyed hook s h1 hb]
  · intro ht
    rw [release_one_destroyed hook s h1 ht]
    exact ⟨rfl, rfl⟩
  · intro hf
    have hrel := release_one_declined hook s h1 hf
    have hret : (Release hook s).ret =
        ((hook s).2.mRefCount + ULONG_RANGE - 1) % ULONG_RANGE := by rw [hrel]
    refine ⟨hret, ?_, ?_, ?_⟩
    · rw [hret, hrel]
    · intro hc
      rw [hret]
      exact dec_mod_ulong _ hc hU
    · intro hc
      rw [hret, dec_mod_ulong _ (Nat.le_of_lt hc) hU]
      omega

theorem C2_witness :
    (Release (fun t => (false, (AddRef t).2)) ObjectBase.new).ret = 1 ∧
    (Release (fun t => (false, (AddRef t).2)) ObjectBase.new).obj =
      { mRefCount := 1, deleted := false } := by
  have hU : (AddRef ObjectBase.new).2.mRefCount = 2 := by
    unfold AddRef ULONG_RANGE; decide
  have h := C2_release_with_count_one (fun t => (false, (AddRef t).2)) ObjectBase.new
    rfl (by rw [hU]; unfold ULONG_RANGE; decide)
  have hd := h.2.2 rfl
  have hret := hd.2.2.1 (by rw [hU]; decide)
  rw [hU] at hret
  refine ⟨hret, ?_⟩
  rw [hd.2.1, hret]
  rfl
theorem addRefN_fresh :
    ∀ (k : Nat) (s : ObjectBase), s.mRefCount + k < ULONG_RANGE →
      AddRefN k s = ((List.range k).map (fun i => s.mRefCount + 1 + i),
        { s with mRefCount := s.mRefCount + k }) := by
  intro k
  induction k with
  | zero => intro s _; simp [AddRefN]
  | succ k ih =>
    intro s h
    have hmod : (s.mRefCount + 1) % ULONG_RANGE = s.mRefCount + 1 :=
      Nat.mod_eq_of_lt (by omega)
    have hrec := ih { s with mRefCount := s.mRefCount + 1 } (by simp; omega)
    simp only [AddRefN, AddRef, hmod, hrec]
    refine Prod.ext ?_ ?_
    · simp only [List.range_succ_eq_map, List.map_cons, List.map_map]
      refine congrArg₂ _ (by simp) ?_
      apply List.map_congr_left
      intro i _
      simp only [Function.comp]
      omega
    · simp only
      congr 1
      omega

/-- C3: a newly constructed `ObjectBase` has reference count 1; `AddRef` on count `c`
stores and returns `c+1` reduced modulo `2^32` (which is `c+1` itself below the 32-bit
limit); and on a fresh object the `j`-th `AddRef` (`j = 1..k`) returns `1+j`, leaving
count `1+k`, for every `k` with `1+k` representable in 32 bits. -/
theorem C3_addref_counts :
    ObjectBase.new.mRefCount = 1 ∧
    (∀ s : ObjectBase,
      (AddRef s).1 = (s.mRefCount + 1) % ULONG_RANGE ∧
      (AddRef s).2 = { s with mRefCount := (s.mRefCount + 1) % ULONG_RANGE } ∧
      (s.mRefCount + 1 < ULONG_RANGE →
        (AddRef s).1 = s.mRefCount + 1 ∧ (AddRef s).2.mRefCount = s.mRefCount + 1)) ∧
    (∀ k : Nat, 1 + k < ULONG_RANGE →
      (AddRefN k ObjectBase.new).1 = (List.range k).map (fun i => 1 + (i + 1)) ∧
      (AddRefN k ObjectBase.new).2.mRefCount = 1 + k) := by
  refine ⟨rfl, ?_, ?_⟩
  · intro s
    refine ⟨rfl, rfl, ?_⟩
    intro h
    simp [AddRef, Nat.mod_eq_of_lt h]
  · intro k hk
    rw [addRefN_fresh k ObjectBase.new (by simpa [ObjectBase.new] using hk)]
    refine ⟨?_, rfl⟩
    apply List.map_congr_left
    intro i _
    simp only [ObjectBase.new]
    omega

theorem C3_witness :
    (AddRef { mRefCount := 4, deleted := false }).1 = 5 ∧
    (AddRefN 3 ObjectBase.new).1 = [2, 3, 4] ∧
    (AddRefN 3 ObjectBase.new).2.mRefCount = 4 := by
  have h := C3_addref_counts
  have h3 : 1 + 3 < ULONG_RANGE := by unfold ULONG_RANGE; decide
  have h4 : ({ mRefCount := 4, deleted := false } : ObjectBase).mRefCount + 1 < ULONG_RANGE := by
    unfold ULONG_RANGE; decide
  exact ⟨((h.2.1 { mRefCount := 4, deleted := false }).2.2 h4).1,
    (h.2.2 3 h3).1, (h.2.2 3 h3).2⟩

end ObjectBase

/-! ## FlatVector: capacity changes -/

namespace FlatVector

variable {T : Type}

theorem setCapacity_fail (realloc : Realloc T) (w sizeofT header_size : Nat)
    (v : FlatVector T) (new_size : Nat)
    (h : realloc (reallocArg v) (requestBytes w sizeofT header_size new_size) = none) :
    SetCapacity realloc w sizeofT header_size v new_size = (false, v) := by
  unfold SetCapacity
  unfold reallocArg at h
  simp only [h]

theorem setCapacity_ok (realloc : Realloc T) (w sizeofT header_size : Nat)
    (v : FlatVector T) (new_size : Nat) (d1 : Data T)
    (h : realloc (reallocArg v) (requestBytes w sizeofT header_size new_size) = some d1) :
    SetCapacity realloc w sizeofT header_size v new_size =
      (true, { v with data := .Heap { d1 with size := new_size, length := v.deref.length } }) := by
  unfold SetCapacity
  unfold reallocArg at h
  simp only [h]

/-- C4 (as stated) fails: on a buffer of capacity 4, `SetCapacity(2)` with a succeeding
allocator returns true and leaves capacity 2, which is smaller than before. -/
theorem C4_counterexample :
    (FlatVector.mk Data.zero (.Heap { size := 4, length := 1, value := [7] })).Capacity = 4 ∧
    (SetCapacity reallocOk 64 2 16
      (FlatVector.mk Data.zero (.Heap { size := 4, length := 1, value := [7] })) 2).1 = true ∧
    (SetCapacity reallocOk 64 2 16
      (FlatVector.mk Data.zero (.Heap { size := 4, length := 1, value := [7] })) 2).2.Capacity = 2 ∧
    ¬ ((FlatVector.mk Data.zero (.Heap { size := 4, length := 1, value := [7] })).Capacity ≤
      (SetCapacity reallocOk 64 2 16
        (FlatVector.mk Data.zero (.Heap { size := 4, length := 1, value := [7] })) 2).2.Capacity) := by
  decide

/-- C4 (amended): `SetCapacity` sets the capacity to exactly the requested size when it
returns true and leaves the whole buffer unchanged when it returns false; hence the
capacity after the call is at least the capacity before whenever the requested size is
at least the capacity before. -/
theorem C4_capacity_after_setCapacity (realloc : Realloc T) (w sizeofT header_size : Nat)
    (v : FlatVector T) (new_size : Nat) :
    ((SetCapacity realloc w sizeofT header_size v new_size).1 = true →
      (SetCapacity realloc w sizeofT header_size v new_size).2.Capacity = new_size) ∧
    ((SetCapacity realloc w sizeofT header_size v new_size).1 = false →
      (SetCapacity realloc w sizeofT header_size v new_size).2 = v) ∧
    (v.Capacity ≤ new_size →
      v.Capacity ≤ (SetCapacity realloc w sizeofT header_size v new_size).2.Capacity) := by
  cases h : realloc (reallocArg v) (requestBytes w sizeofT header_size new_size) with
  | none =>
    rw [setCapacity_fail realloc w sizeofT header_size v new_size h]
    exact ⟨fun hc => Bool.noConfusion hc, fun _ => rfl, fun _ => Nat.le_refl _⟩
  | some d1 =>
    rw [setCapacity_ok realloc w sizeofT header_size v new_size d1 h]
    exact ⟨fun _ => rfl, fun hc => Bool.noConfusion hc, fun hle => hle⟩

theorem C4_witness :
    (FlatVector.mk Data.zero (.Heap { size := 4, length := 1, value := [7] })).Capacity ≤
      (SetCapacity reallocOk 64 2 16
        (FlatVector.mk Data.zero (.Heap { size := 4, length := 1, value := [7] })) 8).2.Capacity :=
  (C4_capacity_after_setCapacity reallocOk 64 2 16
    (FlatVector.mk Data.zero (.Heap { size := 4, length := 1, value := [7] })) 8).2.2 (by decide)

/-- C5: if the allocator cannot satisfy the request, `SetCapacity` returns false and the
buffer is unchanged: same storage binding, so the same `Length()`, `Capacity()` and
contents, whether it was bound to the shared empty sentinel or to an owned block. -/
theorem C5_setCapacity_alloc_failure (realloc : Realloc T) (w sizeofT header_size : Nat)
    (v : FlatVector T) (new_size : Nat)
    (h : realloc (reallocArg v) (requestBytes w sizeofT header_size new_size) = none) :
    (SetCapacity realloc w sizeofT header_size v new_size).1 = false ∧
    (SetCapacity realloc w sizeofT header_size v new_size).2 = v ∧
    (SetCapacity realloc w sizeofT header_size v new_size).2.data = v.data ∧
    (SetCapacity realloc w sizeofT header_size v new_size).2.Length = v.Length ∧
    (SetCapacity realloc w sizeofT header_size v new_size).2.Capacity = v.Capacity ∧
    (SetCapacity realloc w sizeofT header_size v new_size).2.Value = v.Value := by
  rw [setCapacity_fail realloc w sizeofT header_size v new_size h]
  exact ⟨rfl, rfl, rfl, rfl, rfl, rfl⟩

theorem C5_witness :
    (SetCapacity reallocFail 64 2 16 (FlatVector.mk Data.zero .Empty) 8).1 = false ∧
    (SetCapacity reallocFail 64 2 16 (FlatVector.mk Data.zero .Empty) 8).2 =
      FlatVector.mk Data.zero .Empty ∧
    (SetCapacity reallocFail 64 2 16
      (FlatVector.mk Data.zero (.Heap { size := 4, length := 1, value := [7] })) 8).2 =
      FlatVector.mk Data.zero (.Heap { size := 4, length := 1, value := [7] }) := by
  have h1 := C5_setCapacity_alloc_failure reallocFail 64 2 16 (FlatVector.mk Data.zero .Empty) 8 rfl
  have h2 := C5_setCapacity_alloc_failure reallocFail 64 2 16
    (FlatVector.mk Data.zero (.Heap { size := 4, length := 1, value := [7] })) 8 rfl
  exact ⟨h1.1, h1.2.1, h2.2.1⟩

/-- C6: if the allocation succeeds, `SetCapacity` returns true, `Length()` afterwards
equals `Length()` before the call (which is 0 when the buffer was bound to the
zero-initialised empty sentinel), `Capacity()` afterwards equals the requested size, and
the sentinel itself is not written. -/
theorem C6_setCapacity_success (realloc : Realloc T) (w sizeofT header_size : Nat)
    (v : FlatVector T) (new_size : Nat) (d1 : Data T)
    (h : realloc (reallocArg v) (requestBytes w sizeofT header_size new_size) = some d1) :
    (SetCapacity realloc w sizeofT header_size v new_size).1 = true ∧
    (SetCapacity realloc w sizeofT header_size v new_size).2.Length = v.Length ∧
    (SetCapacity realloc w sizeofT header_size v new_size).2.Capacity = new_size ∧
    (SetCapacity realloc w sizeofT header_size v new_size).2.Empty = v.Empty ∧
    (v.data = .Empty → v.Empty = Data.zero →
      (SetCapacity realloc w sizeofT header_size v new_size).2.Length = 0) := by
  rw [setCapacity_ok realloc w sizeofT header_size v new_size d1 h]
  refine ⟨rfl, rfl, rfl, rfl, ?_⟩
  intro hd hz
  show v.deref.length = 0
  simp [deref, hd, hz, Data.zero]

theorem C6_witness :
    (SetCapacity reallocOk 64 2 16 (FlatVector.mk Data.zero .Empty) 8).1 = true ∧
    (SetCapacity reallocOk 64 2 16 (FlatVector.mk Data.zero .Empty) 8).2.Length = 0 ∧
    (SetCapacity reallocOk 64 2 16 (FlatVector.mk Data.zero .Empty) 8).2.Capacity = 8 := by
  have h := C6_setCapacity_success reallocOk 64 2 16 (FlatVector.mk Data.zero .Empty) 8
    Data.zero rfl
  exact ⟨h.1, h.2.2.2.2 rfl rfl, h.2.2.1⟩

end FlatVector

/-! ## Object: zone boundaries, lookup and enumeration -/

namespace Object

/-- C7: the zone invariant does not survive `MetaObject::Free`.  From a new object,
`SetItem(1, "a")` followed by `Free` is reachable and leaves `mFieldCount = 0` with
`mKeyOffsetObject = mKeyOffsetString = 1`, so `mKeyOffsetString <= mFieldCount` fails. -/
theorem C7_free_leaves_stale_boundaries :
    SetItem env32 Object.new (.SYM_INTEGER 1) (.SYM_STRING "a".toList) = some (true, sampleOne) ∧
    MetaObject.Free sampleOne =
      some (sampleOneFreed, [Effect.Free_value 0, Effect.free_mFields]) ∧
    Reachable env32 sampleOneFreed ∧
    sampleOneFreed.mKeyOffsetObject = 1 ∧ sampleOneFreed.mKeyOffsetString = 1 ∧
    sampleOneFreed.mFieldCount = 0 ∧
    ¬ ZoneOrder sampleOneFreed := by
  have h1 : SetItem env32 Object.new (.SYM_INTEGER 1) (.SYM_STRING "a".toList) =
      some (true, sampleOne) := by decide
  have h2 : MetaObject.Free sampleOne =
      some (sampleOneFreed, [Effect.Free_value 0, Effect.free_mFields]) := by decide
  refine ⟨h1, h2, ?_, rfl, rfl, rfl, by decide⟩
  exact Reachable.Free _ _ _ (Reachable.SetItem _ _ _ _ _ Reachable.new h1) h2

/-- C8: read-your-write fails for integer keys that are far apart.  On a 32-bit build,
after the successful calls `SetItem(1073741824, "a")` and `SetItem(-1073741824, "b")` the
field array is correctly sorted, yet `GetItem("1073741824")` returns false and leaves the
token untouched: the search compares with `val - key.i`, which overflows. -/
theorem C8_get_misses_key_after_set :
    SetItem env32 Object.new (.SYM_INTEGER 1073741824) (.SYM_STRING "a".toList) =
      some (true, sampleFar1) ∧
    SetItem env32 sampleFar1 (.SYM_INTEGER (-1073741824)) (.SYM_STRING "b".toList) =
      some (true, sampleFar2) ∧
    ZoneInv 32 sampleFar2 ∧
    GetItem env32 sampleFar2 (.SYM_INTEGER 0) "1073741824".toList =
      some (false, .SYM_INTEGER 0) ∧
    GetItem env32 sampleFar2 (.SYM_INTEGER 0) "-1073741824".toList =
      some (true, .SYM_STRING "b".toList) := by
  refine ⟨by decide, by decide, by decide, by decide, by decide⟩

end Object

namespace Object

theorem two_pow_pred (w : Nat) (hw : 0 < w) :
    ((2 ^ w : Nat) : Int) = 2 * ((2 ^ (w - 1) : Nat) : Int) := by
  have h : 2 ^ w = 2 * 2 ^ (w - 1) := by
    cases w with
    | zero => omega
    | succ n => simp [pow_succ, Nat.mul_comm]
  rw [h]
  push_cast
  rfl

theorem wrapS_of_inRange (w : Nat) (hw : 0 < w) (x : Int) (h : InRangeS w x) :
    wrapS w x = x := by
  unfold wrapS
  unfold InRangeS at h
  rw [two_pow_pred w hw]
  generalize ((2 ^ (w - 1) : Nat) : Int) = H at h ⊢
  rw [Int.emod_eq_of_lt (by omega) (by omega)]
  omega

theorem zone_field (w : Nat) (o : Object) (h : ZoneInv w o) (j : Nat)
    (hj : (j : Int) < o.mKeyOffsetObject) :
    ∃ f v, o.fieldAt j = some f ∧ o.fields[j]? = some f ∧ (intZone o)[j]? = some f ∧
      f.key = KeyType.i v ∧ (intKeys o)[j]? = some v ∧ InRangeS w v := by
  obtain ⟨⟨h0, h1, h2⟩, hlen, _, hty, hrange, _⟩ := h
  have hjn : j < o.mKeyOffsetObject.toNat := by omega
  have hjl : j < o.fields.length := by omega
  have hf : o.fields[j]? = some o.fields[j] := List.getElem?_eq_getElem hjl
  have hz : (intZone o)[j]? = some o.fields[j] := by
    unfold intZone
    rw [List.getElem?_take_of_lt hjn, hf]
  have hmem : o.fields[j] ∈ intZone o := List.mem_iff_getElem?.mpr ⟨j, hz⟩
  have hint := hty _ hmem
  cases hk : (o.fields[j]).key with
  | s t => rw [hk] at hint; cases hint
  | p a => rw [hk] at hint; cases hint
  | i v =>
    have hkeys : (intKeys o)[j]? = some v := by
      unfold intKeys
      rw [List.getElem?_map, hz]
      simp [hk, KeyType.i?]
    refine ⟨o.fields[j], v, ?_, hf, hz, hk, hkeys, ?_⟩
    · unfold fieldAt
      rw [if_pos (by omega)]
      simp [hf]
    · exact hrange v (List.mem_iff_getElem?.mpr ⟨j, hkeys⟩)

theorem intKeys_length (w : Nat) (o : Object) (h : ZoneInv w o) :
    (intKeys o).length = o.mKeyOffsetObject.toNat := by
  obtain ⟨⟨h0, h1, h2⟩, hlen, _, _, _, _⟩ := h
  unfold intKeys intZone
  rw [List.length_map, List.length_take]
  omega

end Object
namespace Object

theorem minIndex_of_head (w : Nat) (o : Object) (h : ZoneInv w o) (k0 : Int) (rest : List Int)
    (hk : intKeys o = k0 :: rest) :
    MinIndex o = some (toInt32 k0) ∧ (∀ k ∈ intKeys o, k0 ≤ k) := by
  have hlen := intKeys_length w o h
  rw [hk, List.length_cons] at hlen
  have hpos : ((0 : Nat) : Int) < o.mKeyOffsetObject := by omega
  obtain ⟨f, v, hfa, _, _, hkey, hkv, _⟩ := zone_field w o h 0 hpos
  rw [hk] at hkv
  have hv : k0 = v := by simpa using hkv
  subst hv
  refine ⟨?_, ?_⟩
  · unfold MinIndex mKeyOffsetInt
    rw [if_pos (by simpa using hpos)]
    have hfa0 : o.fieldAt 0 = some f := by simpa using hfa
    rw [hfa0]
    simp [hkey, KeyType.i?]
  · have hs := h.2.2.2.2.2
    rw [hk] at hs ⊢
    intro k hkm
    rcases List.mem_cons.mp hkm with rfl | hr
    · exact le_refl _
    · exact le_of_lt ((List.pairwise_cons.mp hs).1 k hr)

theorem maxIndex_of_last (w : Nat) (o : Object) (h : ZoneInv w o) (front : List Int) (k1 : Int)
    (hk : intKeys o = front ++ [k1]) :
    MaxIndex o = some (toInt32 k1) ∧ (∀ k ∈ intKeys o, k ≤ k1) := by
  have hlen := intKeys_length w o h
  rw [hk, List.length_append, List.length_singleton] at hlen
  have hj : ((front.length : Nat) : Int) < o.mKeyOffsetObject := by omega
  have hje : o.mKeyOffsetObject - 1 = ((front.length : Nat) : Int) := by omega
  obtain ⟨f, v, hfa, _, _, hkey, hkv, _⟩ := zone_field w o h front.length hj
  rw [hk, List.getElem?_append_right (le_refl _)] at hkv
  have hv : k1 = v := by simpa using hkv
  subst hv
  refine ⟨?_, ?_⟩
  · unfold MaxIndex mKeyOffsetInt
    rw [if_pos (by omega), hje, hfa]
    simp [hkey, KeyType.i?]
  · have hs := h.2.2.2.2.2
    rw [hk] at hs ⊢
    intro k hkm
    rcases List.mem_append.mp hkm with hf | hl
    · exact le_of_lt ((List.pairwise_append.mp hs).2.2 k hf k1 (List.mem_singleton.mpr rfl))
    · rw [List.mem_singleton.mp hl]

theorem toInt32_of_inRange (k : Int) (h : InRangeS 32 k) : toInt32 k = k :=
  wrapS_of_inRange 32 (by decide) k h

/-- C10 (as stated) fails on a 64-bit build: an object satisfying the zone invariant whose
only integer key is 4294967296 has `MinIndex() = MaxIndex() = 0`, not the key. -/
theorem C10_counterexample :
    ZoneInv 64 sampleBig ∧ intKeys sampleBig = [4294967296] ∧
    MinIndex sampleBig = some 0 ∧ MaxIndex sampleBig = some 0 ∧
    MinIndex sampleBig ≠ some 4294967296 ∧ MaxIndex sampleBig ≠ some 4294967296 := by
  refine ⟨by decide, by decide, by decide, by decide, by decide, by decide⟩

/-- C10 (amended): for an object satisfying the zone invariant, `MinIndex()` is the
smallest integer key and `MaxIndex()` the largest, each converted to `int` (so the key
itself whenever it is representable as a 32-bit `int`); with no integer key both are 0;
`Count()` is the field count converted to `int`; and an array holding exactly the integer
keys `1..n` (`1 <= n < 2^31`) has `Count() = n`, `MinIndex() = 1`, `MaxIndex() = n`. -/
theorem C10_min_max_count (w : Nat) (o : Object) (h : ZoneInv w o) :
    (∀ k0 rest, intKeys o = k0 :: rest →
      MinIndex o = some (toInt32 k0) ∧ (∀ k ∈ intKeys o, k0 ≤ k)) ∧
    (∀ front k1, intKeys o = front ++ [k1] →
      MaxIndex o = some (toInt32 k1) ∧ (∀ k ∈ intKeys o, k ≤ k1)) ∧
    (intKeys o = [] → MinIndex o = some 0 ∧ MaxIndex o = some 0) ∧
    (∀ k, InRangeS 32 k → toInt32 k = k) ∧
    Count o = toInt32 o.mFieldCount ∧
    (∀ n : Nat, 1 ≤ n → (n : Int) < 2147483648 → o.mFieldCount = n →
      intKeys o = (List.range n).map (fun (i : Nat) => (i : Int) + 1) →
      Count o = (n : Int) ∧ MinIndex o = some 1 ∧ MaxIndex o = some (n : Int)) := by
  refine ⟨fun k0 rest hk => minIndex_of_head w o h k0 rest hk,
    fun front k1 hk => maxIndex_of_last w o h front k1 hk, ?_, toInt32_of_inRange, rfl, ?_⟩
  · intro hk
    have hlen := intKeys_length w o h
    rw [hk, List.length_nil] at hlen
    have h0 := h.1.1
    have hz : ¬ (mKeyOffsetInt < o.mKeyOffsetObject) := by
      unfold mKeyOffsetInt
      omega
    unfold MinIndex MaxIndex
    rw [if_neg hz, if_neg hz]
    exact ⟨rfl, rfl⟩
  · intro n hn hlt hcount hk
    have hr32 : ∀ m : Int, 0 ≤ m → m < 2147483648 → toInt32 m = m := by
      intro m hm0 hm1
      apply toInt32_of_inRange
      unfold InRangeS
      constructor
      · have : -(((2 ^ (32 - 1) : Nat)) : Int) ≤ 0 := by decide
        omega
      · have : (((2 ^ (32 - 1) : Nat)) : Int) = 2147483648 := by decide
        omega
    refine ⟨?_, ?_, ?_⟩
    · unfold Count
      rw [hcount]
      exact hr32 n (by omega) hlt
    · obtain ⟨m, rfl⟩ : ∃ m, n = m + 1 := ⟨n - 1, by omega⟩
      rw [List.range_succ_eq_map, List.map_cons] at hk
      have := (minIndex_of_head w o h _ _ hk).1
      rw [this]
      simp only [Nat.cast_zero, zero_add]
      rw [hr32 1 (by decide) (by decide)]
    · obtain ⟨m, rfl⟩ : ∃ m, n = m + 1 := ⟨n - 1, by omega⟩
      rw [List.range_succ, List.map_append, List.map_singleton] at hk
      have := (maxIndex_of_last w o h _ _ hk).1
      rw [this, hr32 _ (by omega) (by push_cast at hlt ⊢; omega)]
      push_cast
      rfl

theorem C10_witness :
    MinIndex sampleArray = some (toInt32 1) ∧ MaxIndex sampleArray = some (toInt32 3) ∧
    Count sampleArray = toInt32 4 := by
  have h := C10_min_max_count 32 sampleArray (by decide)
  exact ⟨(h.1 1 [2, 3] (by decide)).1, (h.2.1 [1, 2] 3 (by decide)).1, h.2.2.2.2.1⟩

end Object

namespace Object

theorem getNextItem_yield (w : Nat) (hw : 0 < w) (o : Object) (h : ZoneInv w o) (c : Cursor)
    (i : Nat) (hc : c.aOffset = (i : Int) - 1) (hi : (i : Int) < o.mKeyOffsetObject) :
    ∃ f v, (intZone o)[i]? = some f ∧ f.key.i? = some v ∧ (intKeys o)[i]? = some v ∧
      GetNextItem w o c = some (true, { aToken := f.value, aOffset := i, aKey := v }) := by
  obtain ⟨f, v, hfa, _, hz, hkey, hkv, _⟩ := zone_field w o h i hi
  have hr : InRangeS w (i : Int) := by
    obtain ⟨⟨_, h1, h2⟩, _, hmax, _⟩ := h
    unfold InRangeS
    constructor <;> omega
  have hoff : wrapS w (c.aOffset + 1) = (i : Int) := by
    rw [hc, Int.sub_add_cancel]
    exact wrapS_of_inRange w hw _ hr
  refine ⟨f, v, hz, by rw [hkey]; rfl, hkv, ?_⟩
  unfold GetNextItem
  simp only [hoff]
  rw [if_neg (by omega), hfa]
  simp only [hkey, KeyType.i?, FieldType.ToToken]

theorem getNextItem_done (w : Nat) (hw : 0 < w) (o : Object) (c : Cursor)
    (i : Nat) (hc : c.aOffset = (i : Int) - 1) (hi : o.mKeyOffsetObject ≤ (i : Int))
    (hmax : (i : Int) < ((2 ^ (w - 1) : Nat) : Int)) :
    GetNextItem w o c = some (false, { c with aOffset := i }) := by
  have hr : InRangeS w (i : Int) := by
    unfold InRangeS
    constructor <;> omega
  have hoff : wrapS w (c.aOffset + 1) = (i : Int) := by
    rw [hc, Int.sub_add_cancel]
    exact wrapS_of_inRange w hw _ hr
  unfold GetNextItem
  simp only [hoff]
  rw [if_pos hi]

theorem getNextItem_step (w : Nat) (hw : 0 < w) (o : Object) (h : ZoneInv w o) (c : Cursor)
    (i : Nat) (hc : c.aOffset = (i : Int) - 1) (hmax : (i : Int) < ((2 ^ (w - 1) : Nat) : Int)) :
    ∃ r, GetNextItem w o c = some r ∧ r.2.aOffset = (i : Int) ∧
      r.1 = decide ((i : Int) < o.mKeyOffsetObject) ∧
      (r.1 = true → ∃ f, (intZone o)[i]? = some f ∧
        (r.2.aKey, r.2.aToken) = (f.key.i?.getD 0, f.value)) := by
  by_cases hi : (i : Int) < o.mKeyOffsetObject
  · obtain ⟨f, v, hz, hkey, _, hg⟩ := getNextItem_yield w hw o h c i hc hi
    refine ⟨_, hg, rfl, by simp [hi], fun _ => ⟨f, hz, ?_⟩⟩
    simp [hkey]
  · refine ⟨_, getNextItem_done w hw o c i hc (by omega) hmax, rfl, by simp [hi], ?_⟩
    intro hf
    cases hf

theorem getNextItemN_spec (w : Nat) (hw : 0 < w) (o : Object) (h : ZoneInv w o) :
    ∀ (k i : Nat) (c : Cursor), c.aOffset = (i : Int) - 1 →
      ((i + k : Nat) : Int) ≤ ((2 ^ (w - 1) : Nat) : Int) →
      ∃ rs, GetNextItemN w o k c = some rs ∧
        rs.map (fun r => r.1) =
          (List.range' i k).map (fun (t : Nat) => decide ((t : Int) < o.mKeyOffsetObject)) ∧
        (rs.filter (fun r => r.1)).map (fun r => (r.2.aKey, r.2.aToken)) =
          (((intZone o).drop i).take k).map (fun f => (f.key.i?.getD 0, f.value)) := by
  intro k
  induction k with
  | zero =>
    intro i c _ _
    exact ⟨[], rfl, rfl, by simp⟩
  | succ k ih =>
    intro i c hc hmax
    obtain ⟨r, hg, hoff, hb, hy⟩ :=
      getNextItem_step w hw o h c i hc (by push_cast at hmax ⊢; omega)
    obtain ⟨rs, hrs, hbools, hyields⟩ :=
      ih (i + 1) r.2 (by rw [hoff]; push_cast; omega) (by push_cast at hmax ⊢; omega)
    refine ⟨r :: rs, ?_, ?_, ?_⟩
    · simp only [GetNextItemN, hg, hrs, Option.map_some']
    · simp only [List.map_cons, List.range'_succ, hb, hbools]
    · by_cases hi : (i : Int) < o.mKeyOffsetObject
      · have hr1 : r.1 = true := by rw [hb]; simp [hi]
        obtain ⟨f, hz, hpair⟩ := hy hr1
        have hlt : i < (intZone o).length := (List.getElem?_eq_some.mp hz).1
        have hfe : (intZone o)[i] = f := (List.getElem?_eq_some.mp hz).2
        have hdrop : (intZone o).drop i = f :: (intZone o).drop (i + 1) := by
          rw [← hfe]
          exact List.drop_eq_getElem_cons hlt
        rw [List.filter_cons_of_pos (by simpa using hr1), List.map_cons, hyields, hdrop,
          List.take_succ_cons, List.map_cons, hpair]
      · have hr1 : r.1 = false := by rw [hb]; simp [hi]
        have hlen : (intZone o).length ≤ i := by
          have := intKeys_length w o h
          unfold intKeys at this
          rw [List.length_map] at this
          have h0 := h.1.1
          omega
        rw [List.filter_cons_of_neg (by simp [hr1]), hyields,
          List.drop_eq_nil_of_le hlen, List.drop_eq_nil_of_le (Nat.le_succ_of_le hlen)]
        simp

theorem wrapS_at_limit (w : Nat) (hw : 0 < w) :
    wrapS w (((2 ^ (w - 1) : Nat) : Int) - 1 + 1) = -((2 ^ (w - 1) : Nat) : Int) := by
  unfold wrapS
  rw [two_pow_pred w hw, Int.sub_add_cancel]
  generalize ((2 ^ (w - 1) : Nat) : Int) = H
  have : H + H = 2 * H := by ring
  rw [this, Int.emod_self]
  omega

theorem getNextItemN_overflow (w : Nat) (hw : 0 < w) (o : Object) (h : ZoneInv w o) :
    ∀ (k i : Nat) (c : Cursor), c.aOffset = (i : Int) - 1 →
      ((i + k : Nat) : Int) = ((2 ^ (w - 1) : Nat) : Int) →
      GetNextItemN w o (k + 1) c = none := by
  intro k
  induction k with
  | zero =>
    intro i c hc hmax
    have hoff : wrapS w (c.aOffset + 1) = -((2 ^ (w - 1) : Nat) : Int) := by
      rw [hc]
      have : (i : Int) = ((2 ^ (w - 1) : Nat) : Int) := by simpa using hmax
      rw [this]
      exact wrapS_at_limit w hw
    have hpos : (0 : Int) < ((2 ^ (w - 1) : Nat) : Int) := by
      have : 0 < 2 ^ (w - 1) := Nat.two_pow_pos (w - 1)
      exact_mod_cast this
    have h0 := h.1.1
    simp only [GetNextItemN, GetNextItem, hoff]
    rw [if_neg (by omega)]
    have hfa : o.fieldAt (-((2 ^ (w - 1) : Nat) : Int)) = none := by
      unfold fieldAt
      rw [if_neg (by omega)]
    rw [hfa]
  | succ k ih =>
    intro i c hc hmax
    obtain ⟨r, hg, hoff, _, _⟩ :=
      getNextItem_step w hw o h c i hc (by push_cast at hmax ⊢; omega)
    have hrec := ih (i + 1) r.2 (by rw [hoff]; push_cast; omega)
      (by push_cast at hmax ⊢; omega)
    rw [GetNextItemN, hg]
    simp only [hrec, Option.map_none']

end Object
namespace Object

theorem map_decide_lt_range (n k : Nat) (hnk : n ≤ k) :
    (List.range' 0 k).map (fun (t : Nat) => decide (t < n)) =
      List.replicate n true ++ List.replicate (k - n) false := by
  apply List.ext_getElem?
  intro j
  rw [List.getElem?_map]
  by_cases hjn : j < n
  · rw [List.getElem?_append_left (by simpa using hjn)]
    have hjk : j < k := by omega
    rw [List.getElem?_eq_getElem (by simpa using hjk),
      List.getElem?_eq_getElem (by simpa using hjn)]
    simp [hjn]
  · rw [List.getElem?_append_right (by simpa using hjn)]
    by_cases hjk : j < k
    · rw [List.getElem?_eq_getElem (by simpa using hjk),
        List.getElem?_eq_getElem (by simp; omega)]
      simp [hjn]
    · rw [List.getElem?_eq_none (by simp; omega), List.getElem?_eq_none (by simp; omega)]
      rfl

/-- C9 (as stated) fails: the cursor is incremented on every call, also on failed ones, so
on a 32-bit build the 2147483649-th call on an empty object increments the cursor past
`INT_PTR` range; the wrapped offset -2147483648 is below `mKeyOffsetObject = 0`, the call
does not return false but indexes `mFields[-2147483648]`. -/
theorem C9_counterexample :
    ZoneInv 32 Object.new ∧ Object.new.mKeyOffsetObject = 0 ∧
    GetNextItemN 32 Object.new (2147483648 + 1) { aToken := .SYM_INTEGER 0, aOffset := -1, aKey := 0 }
      = none ∧
    GetNextItem 32 Object.new { aToken := .SYM_INTEGER 0, aOffset := 2147483647, aKey := 0 }
      = none := by
  refine ⟨by decide, rfl, ?_, by decide⟩
  exact getNextItemN_overflow 32 (by decide) Object.new (by decide) 2147483648 0 _ rfl
    (by decide)

/-- C9 (amended): for an object satisfying the zone invariant with `n` integer keys,
`k` consecutive `GetNextItem` calls from cursor offset -1, for any `n <= k <= 2^(w-1)`,
are all defined; the first `n` return true and yield exactly the key/value pairs of the
integer zone in index order, whose keys are strictly ascending integer keys, and the
remaining `k - n` calls return false.  Call number `2^(w-1) + 1` is undefined (the cursor
wraps around). -/
theorem C9_enumeration_from_start (w : Nat) (hw : 0 < w) (o : Object) (h : ZoneInv w o)
    (c : Cursor) (hc : c.aOffset = -1) (k : Nat) (hn : o.mKeyOffsetObject.toNat ≤ k)
    (hk : (k : Int) ≤ ((2 ^ (w - 1) : Nat) : Int)) :
    (∃ rs, GetNextItemN w o k c = some rs ∧
      rs.map (fun r => r.1) =
        List.replicate o.mKeyOffsetObject.toNat true ++
          List.replicate (k - o.mKeyOffsetObject.toNat) false ∧
      (rs.filter (fun r => r.1)).map (fun r => (r.2.aKey, r.2.aToken)) =
        (intZone o).map (fun f => (f.key.i?.getD 0, f.value)) ∧
      (rs.filter (fun r => r.1)).map (fun r => r.2.aKey) = intKeys o) ∧
    (intKeys o).Pairwise (fun a b => a < b) ∧
    (∀ f ∈ intZone o, f.key.isInt = true) ∧
    (intKeys o).length = o.mKeyOffsetObject.toNat ∧
    (∀ k2 : Nat, (k2 : Int) = ((2 ^ (w - 1) : Nat) : Int) →
      GetNextItemN w o (k2 + 1) c = none) := by
  have hlen := intKeys_length w o h
  have h0 := h.1.1
  refine ⟨?_, h.2.2.2.2.2, h.2.2.2.1, hlen, ?_⟩
  · obtain ⟨rs, hrs, hbools, hyields⟩ :=
      getNextItemN_spec w hw o h k 0 c (by rw [hc]; rfl) (by simpa using hk)
    have hzl : (intZone o).length ≤ k := by
      unfold intKeys at hlen
      rw [List.length_map] at hlen
      omega
    rw [List.drop_zero, List.take_of_length_le hzl] at hyields
    refine ⟨rs, hrs, ?_, hyields, ?_⟩
    · rw [hbools, ← map_decide_lt_range _ _ hn]
      apply List.map_congr_left
      intro t _
      congr 1
      apply propext
      constructor <;> intro ht <;> omega
    · have := congrArg (List.map Prod.fst) hyields
      rw [List.map_map, List.map_map] at this
      exact this
  · intro k2 hk2
    exact getNextItemN_overflow w hw o h k2 0 c (by rw [hc]; rfl) (by simpa using hk2)

theorem C9_witness :
    ∃ rs, GetNextItemN 32 sampleArray 5 { aToken := .SYM_INTEGER 0, aOffset := -1, aKey := 0 }
        = some rs ∧
      rs.map (fun r => r.1) = [true, true, true, false, false] ∧
      (rs.filter (fun r => r.1)).map (fun r => r.2.aKey) = [1, 2, 3] := by
  have h := C9_enumeration_from_start 32 (by decide) sampleArray (by decide)
    { aToken := .SYM_INTEGER 0, aOffset := -1, aKey := 0 } rfl 5 (by decide) (by decide)
  obtain ⟨rs, hrs, hb, _, hkeys⟩ := h.1
  exact ⟨rs, hrs, hb, hkeys⟩

end Object

/-! ## MetaObject, SetBase, Expand -/

namespace MetaObject

/-- C11: the meta-object is immortal.  For every sequence of `AddRef` and `Release`
calls on it, every call returns 1, the object (its stored reference count included) is
unchanged, no call reaches `Delete`, and `Delete` itself returns false and changes
nothing. -/
theorem C11_metaobject_immortal :
    ∀ (calls : List RefCall) (o : Object),
      runCalls calls o = (List.replicate calls.length 1, o, 0) ∧
      (runCalls calls o).2.1.mRefCount = o.mRefCount ∧
      AddRef o = (1, o) ∧ Release o = (1, o, 0) ∧ Delete o = (false, o) := by
  intro calls
  induction calls with
  | nil => intro o; exact ⟨rfl, rfl, rfl, rfl, rfl⟩
  | cons c rest ih =>
    intro o
    have h := (ih o).1
    have hrun : runCalls (c :: rest) o = (List.replicate (c :: rest).length 1, o, 0) := by
      cases c <;> simp only [runCalls, AddRef, Release, h, List.length_cons,
        List.replicate_succ, Nat.zero_add]
    exact ⟨hrun, by rw [hrun], rfl, rfl, rfl⟩

end MetaObject

namespace Object

/-- C14: after `SetBase(b)`, `Base()` returns `b`; the calls made on other objects are
exactly one `AddRef` on `b` when `b` is non-null followed by exactly one `Release` on the
old prototype when that is non-null; the fields, field count, capacity, zone boundaries
and the object's own reference count are unchanged; and `Base()` is a pure read. -/
theorem C14_setBase (o : Object) (b : Int) :
    Base (SetBase o b).1 = b ∧
    (SetBase o b).2 =
      (if b ≠ 0 then [Effect.AddRef b] else []) ++
      (if o.mBase ≠ 0 then [Effect.Release o.mBase] else []) ∧
    (SetBase o b).2.count (Effect.AddRef b) = (if b ≠ 0 then 1 else 0) ∧
    (SetBase o b).2.count (Effect.Release o.mBase) = (if o.mBase ≠ 0 then 1 else 0) ∧
    (SetBase o b).1 = { o with mBase := b } ∧
    (SetBase o b).1.mFields = o.mFields ∧
    (SetBase o b).1.mFieldCount = o.mFieldCount ∧
    (SetBase o b).1.mFieldCountMax = o.mFieldCountMax ∧
    (SetBase o b).1.mKeyOffsetObject = o.mKeyOffsetObject ∧
    (SetBase o b).1.mKeyOffsetString = o.mKeyOffsetString ∧
    (SetBase o b).1.mRefCount = o.mRefCount ∧
    Base o = o.mBase := by
  refine ⟨rfl, rfl, ?_, ?_, rfl, rfl, rfl, rfl, rfl, rfl, rfl, rfl⟩
  · unfold SetBase
    by_cases hb : b = 0 <;> by_cases ho : o.mBase = 0 <;> simp [hb, ho]
  · unfold SetBase
    by_cases hb : b = 0 <;> by_cases ho : o.mBase = 0 <;> simp [hb, ho]

/-- C15 (as stated) fails: with capacity `m = 2^62` on a 64-bit build, `m * 2` overflows
the signed index type; the requested capacity is `-2^63`, neither `2*m` nor greater than
`m`.  The same holds for `Struct::Expand`, whose index type is `INT64`. -/
theorem C15_counterexample :
    InRangeS 64 4611686018427387904 ∧
    Expand env64 { Object.new with mFieldCountMax := 4611686018427387904 } =
      SetInternalCapacity env64 { Object.new with mFieldCountMax := 4611686018427387904 }
        (-9223372036854775808) ∧
    Struct.Expand (fun s n => (true, { s with mFieldCountMax := n }))
        { mFieldCount := 0, mFieldCountMax := 4611686018427387904 } =
      (true, { mFieldCount := 0, mFieldCountMax := -9223372036854775808 }) ∧
    ¬ ((4611686018427387904 : Int) < -9223372036854775808) := by
  refine ⟨by decide, by decide, by decide, by decide⟩

/-- C15 (amended): `Object::Expand` and `Struct::Expand` return exactly what
`SetInternalCapacity` returns for the requested capacity, which is 4 when the current
capacity `m` is 0 and `m * 2` reduced to the signed index type otherwise; that is exactly
`2*m`, strictly greater than `m`, for every `m` with `0 < m` and `2*m` representable in
the index type (`m < 2^(w-2)`). -/
theorem C15_expand_doubles (env : Env) (o : Object)
    (sic : Struct → Int → Bool × Struct) (s : Struct) :
    Expand env o = SetInternalCapacity env o
      (if o.mFieldCountMax ≠ 0 then wrapS env.w (o.mFieldCountMax * 2) else 4) ∧
    Struct.Expand sic s =
      sic s (if s.mFieldCountMax ≠ 0 then wrapS 64 (s.mFieldCountMax * 2) else 4) ∧
    (o.mFieldCountMax = 0 → Expand env o = SetInternalCapacity env o 4) ∧
    (s.mFieldCountMax = 0 → Struct.Expand sic s = sic s 4) ∧
    (0 < env.w → 0 < o.mFieldCountMax → InRangeS env.w (o.mFieldCountMax * 2) →
      Expand env o = SetInternalCapacity env o (2 * o.mFieldCountMax) ∧
      o.mFieldCountMax < 2 * o.mFieldCountMax) ∧
    (0 < s.mFieldCountMax → InRangeS 64 (s.mFieldCountMax * 2) →
      Struct.Expand sic s = sic s (2 * s.mFieldCountMax) ∧
      s.mFieldCountMax < 2 * s.mFieldCountMax) := by
  refine ⟨rfl, rfl, ?_, ?_, ?_, ?_⟩
  · intro h0
    unfold Expand
    rw [if_neg (by simp [h0])]
  · intro h0
    unfold Struct.Expand
    rw [if_neg (by simp [h0])]
  · intro hw hpos hr
    unfold Expand
    rw [if_pos (by omega), wrapS_of_inRange env.w hw _ hr, Int.mul_comm]
    exact ⟨rfl, by omega⟩
  · intro hpos hr
    unfold Struct.Expand
    rw [if_pos (by omega), wrapS_of_inRange 64 (by decide) _ hr, Int.mul_comm]
    exact ⟨rfl, by omega⟩

theorem C15_witness :
    Expand env32 sampleArray = SetInternalCapacity env32 sampleArray (2 * 4) ∧
    Struct.Expand (fun s n => (true, { s with mFieldCountMax := n }))
        { mFieldCount := 3, mFieldCountMax := 4 } =
      (true, { mFieldCount := 3, mFieldCountMax := 2 * 4 }) ∧
    Expand env32 Object.new = SetInternalCapacity env32 Object.new 4 := by
  have h := C15_expand_doubles env32 sampleArray
    (fun s n => (true, { s with mFieldCountMax := n })) { mFieldCount := 3, mFieldCountMax := 4 }
  have h2 := C15_expand_doubles env32 Object.new
    (fun s n => (true, { s with mFieldCountMax := n })) { mFieldCount := 3, mFieldCountMax := 4 }
  exact ⟨(h.2.2.2.2.1 (by decide) (by decide) (by decide)).1,
    (h.2.2.2.2.2 (by decide) (by decide)).1, h2.2.2.1 rfl⟩

end Object

/-! ## FlatVector: the shared empty sentinel -/

namespace FlatVector

variable {T : Type}

/-- C16: after `Init`, and after `Free` from any state, the buffer is bound to the shared
empty sentinel (it owns no storage), so with the sentinel as the loader zero-fills it
`Length()` and `Capacity()` are 0; `Free` is idempotent; and none of `Init`, `Free`,
`SetCapacity` writes the sentinel, so any other buffer bound to it still reports length 0
and capacity 0 afterwards. -/
theorem C16_sentinel (realloc : Realloc T) (w sizeofT header_size : Nat)
    (v : FlatVector T) (new_size : Nat) :
    (Init v).data = .Empty ∧ (Free v).data = .Empty ∧
    Free (Free v) = Free v ∧ Free (Init v) = Init v ∧
    (Init v).Empty = v.Empty ∧ (Free v).Empty = v.Empty ∧
    (SetCapacity realloc w sizeofT header_size v new_size).2.Empty = v.Empty ∧
    (v.Empty = Data.zero →
      Length (Init v) = 0 ∧ Capacity (Init v) = 0 ∧
      Length (Free v) = 0 ∧ Capacity (Free v) = 0 ∧
      Length { Empty := (Init v).Empty, data := .Empty } = 0 ∧
      Capacity { Empty := (Init v).Empty, data := .Empty } = 0 ∧
      Length { Empty := (Free v).Empty, data := .Empty } = 0 ∧
      Capacity { Empty := (Free v).Empty, data := .Empty } = 0 ∧
      Length { Empty := (SetCapacity realloc w sizeofT header_size v new_size).2.Empty,
               data := .Empty } = 0 ∧
      Capacity { Empty := (SetCapacity realloc w sizeofT header_size v new_size).2.Empty,
                 data := .Empty } = 0) := by
  have hfree : (Free v).data = .Empty ∧ (Free v).Empty = v.Empty := by
    unfold Free
    cases hd : v.data with
    | Empty => exact ⟨hd, rfl⟩
    | Heap b => exact ⟨rfl, rfl⟩
  have hff : Free (Free v) = Free v := by
    have h1 := hfree.1
    generalize Free v = u at h1
    unfold Free
    rw [h1]
  have hsc : (SetCapacity realloc w sizeofT header_size v new_size).2.Empty = v.Empty := by
    cases h : realloc (reallocArg v) (requestBytes w sizeofT header_size new_size) with
    | none => rw [setCapacity_fail realloc w sizeofT header_size v new_size h]
    | some d1 => rw [setCapacity_ok realloc w sizeofT header_size v new_size d1 h]
  refine ⟨rfl, hfree.1, hff, rfl, rfl, hfree.2, hsc, ?_⟩
  intro hz
  have hl : ∀ u : FlatVector T, u.data = .Empty → u.Empty = v.Empty →
      Length u = 0 ∧ Capacity u = 0 := by
    intro u hd he
    unfold Length Capacity deref
    rw [hd, he, hz]
    exact ⟨rfl, rfl⟩
  have hsent : ∀ e : Data T, e = v.Empty →
      Length { Empty := e, data := .Empty } = 0 ∧ Capacity { Empty := e, data := .Empty } = 0 :=
    fun e he => hl { Empty := e, data := .Empty } rfl he
  exact ⟨(hl (Init v) rfl rfl).1, (hl (Init v) rfl rfl).2,
    (hl (Free v) hfree.1 hfree.2).1, (hl (Free v) hfree.1 hfree.2).2,
    (hsent _ rfl).1, (hsent _ rfl).2, (hsent _ hfree.2).1, (hsent _ hfree.2).2,
    (hsent _ hsc).1, (hsent _ hsc).2⟩

theorem C16_witness :
    Length (Free (FlatVector.mk (Data.zero : Data Nat)
      (.Heap { size := 4, length := 1, value := [7] }))) = 0 ∧
    Capacity (Free (FlatVector.mk (Data.zero : Data Nat)
      (.Heap { size := 4, length := 1, value := [7] }))) = 0 := by
  have h := C16_sentinel reallocOk 64 2 16
    (FlatVector.mk Data.zero (.Heap { size := 4, length := 1, value := [7] })) 8
  exact ⟨(h.2.2.2.2.2.2.2 rfl).2.2.1, (h.2.2.2.2.2.2.2 rfl).2.2.2.1⟩

end FlatVector

namespace Object

/-- C19: `CompareKey` is not a three-way comparison when the subtraction overflows.  On a
32-bit build, for `val = 1073741824` and a field with key `-1073741824` (so `val > key`)
the result `val - key.i` is `-2147483648`, negative; and for `val = -1073741824` against
key `1073741825` (so `val < key`) it is `2147483647`, positive. -/
theorem C19_compareKey_overflow :
    InRangeS 32 1073741824 ∧ InRangeS 32 (-1073741824) ∧ InRangeS 32 1073741825 ∧
    FieldType.CompareKeyInt 32 { value := .SYM_INTEGER 0, key := .i (-1073741824) } 1073741824 =
      some (-2147483648) ∧
    FieldType.CompareKeyInt 32 { value := .SYM_INTEGER 0, key := .i 1073741825 } (-1073741824) =
      some 2147483647 := by
  refine ⟨by decide, by decide, by decide, by decide, by decide⟩

/-- C20: after `MetaObject::Free` the object is not a consistent empty array when it had
an integer key.  For the object holding the single key 1 (which satisfies the zone
invariant), `Free` leaves `mKeyOffsetObject = 1` above `mFieldCount = 0`:
`GetNumericItemCount()` is 1, and `MinIndex()`, `MaxIndex()` and `GetNextItem` from offset
-1 all index the null field array. -/
theorem C20_free_leaves_inconsistent_object :
    ZoneInv 32 sampleOne ∧ ZoneTyped sampleOne ∧
    (MetaObject.Free sampleOne).map (fun r => r.1) = some sampleOneFreed ∧
    ¬ ZoneOrder sampleOneFreed ∧
    Count sampleOneFreed = 0 ∧ HasNonnumericKeys sampleOneFreed = false ∧
    GetNumericItemCount sampleOneFreed = 1 ∧
    sampleOneFreed.mFields = none ∧
    MinIndex sampleOneFreed = none ∧ MaxIndex sampleOneFreed = none ∧
    GetNextItem 32 sampleOneFreed { aToken := .SYM_INTEGER 0, aOffset := -1, aKey := 0 } = none := by
  refine ⟨by decide, by decide, by decide, by decide, by decide, by decide, by decide, rfl,
    by decide, by decide, by decide⟩

/-- C13: `GetItem` reports a miss for a key that the integer zone contains.  On a 32-bit
build the object with integer keys -1073741824 and 1073741824 satisfies the zone
invariant, the text "1073741824" is classified as the integer 1073741824, which is the
key of the field at index 1, and yet `GetItem` returns false (leaving the token as it
was). -/
theorem C13_get_reports_miss_for_stored_key :
    ZoneInv 32 sampleFar2 ∧
    getItemKey 32 "1073741824".toList = (.SYM_INTEGER, .i 1073741824) ∧
    (sampleFar2.fieldAt 1).map (fun f => f.key) = some (.i 1073741824) ∧
    (1073741824 : Int) ∈ intKeys sampleFar2 ∧
    FindField 32 sampleFar2 .SYM_INTEGER (.i 1073741824) =
      some { field := none, insert_pos := 0 } ∧
    GetItem env32 sampleFar2 (.SYM_FLOAT 9) "1073741824".toList = some (false, .SYM_FLOAT 9) := by
  refine ⟨by decide, by decide, by decide, by decide, by decide, by decide⟩

end Object

namespace Object

theorem isNumeric_cases (t : List Char) :
    IsNumeric t = .SYM_INTEGER ∨ IsNumeric t = .SYM_STRING := by
  unfold IsNumeric
  simp only
  split
  · exact Or.inl rfl
  · exact Or.inr rfl

/-- C17 (as stated) fails: on a 64-bit build the text "99999999999999999999" is a
fully-formed decimal integer and is looked up in the integer zone, but under the key
7766279631452241919, not under the integer the text denotes, which does not fit the
64-bit key member (no value of that member equals it). -/
theorem C17_counterexample :
    IsNumeric "99999999999999999999".toList = .SYM_INTEGER ∧
    decimalValue "99999999999999999999".toList = 99999999999999999999 ∧
    ¬ InRangeS 64 (decimalValue "99999999999999999999".toList) ∧
    getItemKey 64 "99999999999999999999".toList = (.SYM_INTEGER, .i 7766279631452241919) ∧
    getItemKey 64 "99999999999999999999".toList ≠ (.SYM_INTEGER, .i 99999999999999999999) := by
  refine ⟨by decide, by decide, by decide, by decide, by decide⟩

/-- C17 (amended): `GetItem` looks a text up in the integer zone, indices
`0 .. mKeyOffsetObject-1`, exactly when the text is a fully-formed decimal integer, under
the key obtained by storing the denoted integer into the `w`-bit key member (the denoted
integer itself whenever it is representable in `INT_PTR`); otherwise it looks the text up
in the string zone, indices `mKeyOffsetString .. mFieldCount-1`, under the text itself;
the object-identity zone is never searched. -/
theorem C17_getItem_key_kind (env : Env) (o : Object) (tok : ExprTokenType)
    (text : List Char) :
    (IsNumeric text = .SYM_INTEGER →
      getItemKey env.w text = (.SYM_INTEGER, .i (wrapS env.w (decimalValue text))) ∧
      GetItem env o tok text = getItemResult o tok
        (FindFieldIn env.w (fun f => f.CompareKeyInt env.w (wrapS env.w (decimalValue text))) o
          (searchFuel 0 (o.mKeyOffsetObject - 1)) 0 (o.mKeyOffsetObject - 1)) ∧
      (0 < env.w → InRangeS env.w (decimalValue text) →
        getItemKey env.w text = (.SYM_INTEGER, .i (decimalValue text)))) ∧
    (IsNumeric text ≠ .SYM_INTEGER →
      getItemKey env.w text = (.SYM_STRING, .s text) ∧
      GetItem env o tok text = getItemResult o tok
        (FindFieldIn env.w (fun f => f.CompareKeyStr text) o
          (searchFuel o.mKeyOffsetString (o.mFieldCount - 1))
          o.mKeyOffsetString (o.mFieldCount - 1))) ∧
    (getItemKey env.w text).1 ≠ .SYM_OBJECT := by
  refine ⟨?_, ?_, ?_⟩
  · intro hn
    have hk : getItemKey env.w text = (.SYM_INTEGER, .i (wrapS env.w (decimalValue text))) := by
      unfold getItemKey ATOI
      simp only [hn, if_true]
    refine ⟨hk, ?_, ?_⟩
    · unfold GetItem
      simp only [hk]
      unfold FindField
      simp only [mKeyOffsetInt, KeyType.i?, if_true]
      rw [if_neg (by decide)]
    · intro hw hr
      rw [hk, wrapS_of_inRange env.w hw _ hr]
  · intro hn
    have hs : IsNumeric text = .SYM_STRING := by
      rcases isNumeric_cases text with h | h
      · exact absurd h hn
      · exact h
    have hk : getItemKey env.w text = (.SYM_STRING, .s text) := by
      unfold getItemKey
      simp only [hs]
      rw [if_neg (by decide)]
    refine ⟨hk, ?_⟩
    unfold GetItem
    simp only [hk]
    unfold FindField
    simp only [KeyType.s?, if_true]
  · unfold getItemKey
    simp only
    rcases isNumeric_cases text with h | h <;> rw [h] <;> decide

theorem C17_witness :
    getItemKey 32 "42".toList = (.SYM_INTEGER, .i 42) ∧
    getItemKey 32 "4x".toList = (.SYM_STRING, .s "4x".toList) := by
  have h1 := C17_getItem_key_kind env32 sampleArray (.SYM_INTEGER 0) "42".toList
  have h2 := C17_getItem_key_kind env32 sampleArray (.SYM_INTEGER 0) "4x".toList
  exact ⟨(h1.1 (by decide)).2.2 (by decide) (by decide), (h2.2.1 (by decide)).1⟩

end Object

namespace Object

theorem assignAt_some (env : Env) (o : Object) (index : Int) (aValue : ExprTokenType)
    (ok : Bool) (o1 : Object) (h : assignAt env o index aValue = some (ok, o1)) :
    ∃ f, o.fieldAt index = some f ∧ ok = (f.Assign env aValue).1 ∧
      o1 = { o with mFields := some (o.fields.set index.toNat (f.Assign env aValue).2) } ∧
      o1.fieldAt index = some (f.Assign env aValue).2 := by
  unfold assignAt at h
  cases hf : o.fieldAt index with
  | none => rw [hf] at h; cases h
  | some f =>
    rw [hf] at h
    simp only [Option.some.injEq, Prod.mk.injEq] at h
    obtain ⟨h1, h2⟩ := h
    refine ⟨f, rfl, h1.symm, h2.symm, ?_⟩
    rw [← h2]
    unfold fieldAt at hf ⊢
    by_cases h0 : 0 ≤ index
    · rw [if_pos h0] at hf ⊢
      have hlt : index.toNat < o.fields.length := (List.getElem?_eq_some.mp hf).1
      simp only [fields, Option.getD_some] at hlt ⊢
      rw [List.getElem?_set]
      simp only [if_true]
      rw [if_pos hlt]
    · rw [if_neg h0] at hf
      cases hf

theorem insert_failure (env : Env) (o o1 : Object) (key_type : SymbolType) (key : KeyType)
    (at_ : Int) (h : Insert env o key_type key at_ = some (none, o1)) :
    o1.fields = o.fields ∧ o1.mFieldCount = o.mFieldCount ∧
    o1.mKeyOffsetObject = o.mKeyOffsetObject ∧ o1.mKeyOffsetString = o.mKeyOffsetString := by
  have hsic : ∀ n : Int,
      (SetInternalCapacity env o n).2.fields = o.fields ∧
      (SetInternalCapacity env o n).2.mFieldCount = o.mFieldCount ∧
      (SetInternalCapacity env o n).2.mKeyOffsetObject = o.mKeyOffsetObject ∧
      (SetInternalCapacity env o n).2.mKeyOffsetString = o.mKeyOffsetString := by
    intro n
    unfold SetInternalCapacity
    by_cases ha : env.alloc n = true
    · rw [if_pos ha]
      exact ⟨rfl, rfl, rfl, rfl⟩
    · rw [if_neg ha]
      exact ⟨rfl, rfl, rfl, rfl⟩
  have hgrown : ∀ g : Bool × Object,
      g = (if o.mFieldCount = o.mFieldCountMax then Expand env o else (true, o)) →
      g.2.fields = o.fields ∧ g.2.mFieldCount = o.mFieldCount ∧
      g.2.mKeyOffsetObject = o.mKeyOffsetObject ∧ g.2.mKeyOffsetString = o.mKeyOffsetString := by
    intro g hg
    by_cases hc : o.mFieldCount = o.mFieldCountMax
    · rw [if_pos hc] at hg
      rw [hg]
      exact hsic _
    · rw [if_neg hc] at hg
      rw [hg]
      exact ⟨rfl, rfl, rfl, rfl⟩
  unfold Insert at h
  dsimp only at h
  generalize hgd : (if o.mFieldCount = o.mFieldCountMax then Expand env o else (true, o)) = g at h
  have hg := hgrown g hgd.symm
  by_cases hg1 : g.1 = false
  · rw [if_pos hg1] at h
    simp only [Option.some.injEq, Prod.mk.injEq, true_and] at h
    rw [← h]
    exact ⟨rfl, rfl, rfl, rfl⟩
  · rw [if_neg hg1] at h
    generalize hdd : (match key_type, key with
      | SymbolType.SYM_STRING, KeyType.s t => env.strdup t
      | _, _ => true) = d at h
    by_cases hd : d = false
    · rw [if_pos hd] at h
      simp only [Option.some.injEq, Prod.mk.injEq, true_and] at h
      rw [← h]
      exact hg
    · rw [if_neg hd] at h
      by_cases hc : 0 ≤ at_ ∧ at_ ≤ g.2.mFieldCount ∧ at_.toNat ≤ g.2.fields.length
      · rw [if_pos hc] at h
        simp only [Option.some.injEq, Prod.mk.injEq, reduceCtorEq, false_and] at h
      · rw [if_neg hc] at h
        cases h

/-- C12: `SetItem` assigns to the existing field when the key is found, without touching
the field count, the capacity or the zone boundaries, and its result is that of the
assignment; when the key is not found it goes through `Insert`, and if `Insert` fails it
returns false with every field as it was (no value assigned) and the count and boundaries
unchanged. -/
theorem C12_setItem_insert_on_miss (env : Env) (o : Object) (aKey aValue : ExprTokenType) :
    (∀ r index, FindField env.w o (classifyKey env aKey).1 (classifyKey env aKey).2 = some r →
      r.field = some index →
      SetItem env o aKey aValue = assignAt env o index aValue ∧
      ∀ ok o1, SetItem env o aKey aValue = some (ok, o1) →
        o1.mFieldCount = o.mFieldCount ∧ o1.mFieldCountMax = o.mFieldCountMax ∧
        o1.mKeyOffsetObject = o.mKeyOffsetObject ∧ o1.mKeyOffsetString = o.mKeyOffsetString ∧
        ∃ f, o.fieldAt index = some f ∧ ok = (f.Assign env aValue).1 ∧
          o1.fieldAt index = some (f.Assign env aValue).2) ∧
    (∀ r, FindField env.w o (classifyKey env aKey).1 (classifyKey env aKey).2 = some r →
      r.field = none →
      SetItem env o aKey aValue =
        match Insert env o (classifyKey env aKey).1 (classifyKey env aKey).2 r.insert_pos with
        | none => none
        | some (none, o1) => some (false, o1)
        | some (some index, o1) => assignAt env o1 index aValue) ∧
    (∀ r o1, FindField env.w o (classifyKey env aKey).1 (classifyKey env aKey).2 = some r →
      r.field = none →
      Insert env o (classifyKey env aKey).1 (classifyKey env aKey).2 r.insert_pos =
        some (none, o1) →
      SetItem env o aKey aValue = some (false, o1) ∧ o1.fields = o.fields ∧
      o1.mFieldCount = o.mFieldCount ∧ o1.mKeyOffsetObject = o.mKeyOffsetObject ∧
      o1.mKeyOffsetString = o.mKeyOffsetString) := by
  refine ⟨?_, ?_, ?_⟩
  · intro r index hfind hfield
    have hset : SetItem env o aKey aValue = assignAt env o index aValue := by
      unfold SetItem
      simp only [hfind, hfield]
    refine ⟨hset, ?_⟩
    intro ok o1 hres
    rw [hset] at hres
    obtain ⟨f, hf, hok, ho1, hnew⟩ := assignAt_some env o index aValue ok o1 hres
    refine ⟨?_, ?_, ?_, ?_, f, hf, hok, hnew⟩ <;> rw [ho1]
  · intro r hfind hfield
    unfold SetItem
    simp only [hfind, hfield]
  · intro r o1 hfind hfield hins
    refine ⟨?_, insert_failure env o o1 _ _ _ hins⟩
    unfold SetItem
    simp only [hfind, hfield, hins]

theorem C12_witness :
    SetItem env32 sampleArray (.SYM_INTEGER 2) (.SYM_INTEGER 9) =
      assignAt env32 sampleArray 1 (.SYM_INTEGER 9) ∧
    SetItem { env32 with alloc := fun _ => false } sampleArray (.SYM_INTEGER 5) (.SYM_INTEGER 9) =
      some (false, sampleArray) := by
  have h := C12_setItem_insert_on_miss env32 sampleArray (.SYM_INTEGER 2) (.SYM_INTEGER 9)
  have h2 := C12_setItem_insert_on_miss { env32 with alloc := fun _ => false } sampleArray
    (.SYM_INTEGER 5) (.SYM_INTEGER 9)
  exact ⟨(h.1 { field := some 1, insert_pos := 1 } 1 (by decide) rfl).1,
    (h2.2.2 { field := none, insert_pos := 3 } sampleArray (by decide) rfl (by decide)).1⟩

end Object


namespace MetaObject

theorem downLoop_spec (body : Int → Option Effect) (bound : Int) :
    ∀ (m fuel : Nat), m ≤ fuel → (∀ t : Nat, t < m → (body (bound + (t : Int))).isSome = true) →
      downLoop body bound fuel (bound + (m : Int) - 1) =
        some (bound - 1, (List.range m).reverse.filterMap (fun (t : Nat) => body (bound + (t : Int)))) := by
  intro m
  induction m with
  | zero =>
    intro fuel _ _
    have hlt : ¬ bound ≤ bound + ((0 : Nat) : Int) - 1 := by omega
    have he : bound + ((0 : Nat) : Int) - 1 = bound - 1 := by omega
    cases fuel with
    | zero => unfold downLoop; rw [if_neg hlt, he]; rfl
    | succ f => unfold downLoop; rw [if_neg hlt, he]; rfl
  | succ m ih =>
    intro fuel hfuel hbody
    cases fuel with
    | zero => omega
    | succ f =>
      have hle : bound ≤ bound + ((m + 1 : Nat) : Int) - 1 := by omega
      have he : bound + ((m + 1 : Nat) : Int) - 1 = bound + (m : Int) := by push_cast; omega
      have hb := hbody m (by omega)
      obtain ⟨e, hbe⟩ := Option.isSome_iff_exists.mp hb
      unfold downLoop
      rw [if_pos hle, he, hbe]
      have hrec := ih f (by omega) (fun t ht => hbody t (by omega))
      simp only [hrec, Option.map_some', List.range_succ, List.reverse_append, List.reverse_cons,
        List.reverse_nil, List.nil_append, List.singleton_append, List.filterMap_cons, hbe]

theorem freeValues_spec (o : Object) :
    ∀ (n fuel : Nat), n ≤ fuel → (∀ t : Nat, t < n → (o.fieldAt (t : Int)).isSome = true) →
      freeValues o fuel (n : Int) =
        some ((List.range n).reverse.map (fun (t : Nat) => Effect.Free_value (t : Int))) := by
  intro n
  induction n with
  | zero =>
    intro fuel _ _
    cases fuel with
    | zero => unfold freeValues; simp
    | succ f => unfold freeValues; simp
  | succ n ih =>
    intro fuel hfuel hbody
    cases fuel with
    | zero => omega
    | succ f =>
      have hne : ((n + 1 : Nat) : Int) ≠ 0 := by omega
      have he : ((n + 1 : Nat) : Int) - 1 = (n : Int) := by push_cast; omega
      obtain ⟨e, hbe⟩ := Option.isSome_iff_exists.mp (hbody n (by omega))
      unfold freeValues
      rw [if_pos hne, he, hbe]
      have hrec := ih f (by omega) (fun t ht => hbody t (by omega))
      simp only [hrec, Option.map_some', List.range_succ, List.reverse_append, List.reverse_cons,
        List.reverse_nil, List.nil_append, List.singleton_append, List.map_cons]

theorem mem_zoneCalls (body : Int → Option Effect) (bound : Int) (m : Nat) (e : Effect) :
    e ∈ (List.range m).reverse.filterMap (fun (t : Nat) => body (bound + (t : Int))) ↔
      ∃ i : Int, bound ≤ i ∧ i < bound + (m : Int) ∧ body i = some e := by
  rw [List.mem_filterMap]
  constructor
  · rintro ⟨t, ht, hb⟩
    rw [List.mem_reverse, List.mem_range] at ht
    exact ⟨bound + (t : Int), by omega, by omega, hb⟩
  · rintro ⟨i, h1, h2, hb⟩
    refine ⟨(i - bound).toNat, ?_, ?_⟩
    · rw [List.mem_reverse, List.mem_range]; omega
    · have : bound + (((i - bound).toNat : Nat) : Int) = i := by omega
      rw [this]; exact hb

theorem nodup_zoneCalls (body : Int → Option Effect) (bound : Int) (m : Nat)
    (hinj : ∀ (i j : Int) (e : Effect), body i = some e → body j = some e → i = j) :
    ((List.range m).reverse.filterMap (fun (t : Nat) => body (bound + (t : Int)))).Nodup := by
  apply List.Nodup.filterMap
  · intro a b e ha hb
    have := hinj _ _ e ha hb
    omega
  · exact List.nodup_reverse.mpr (List.nodup_range m)

theorem freeKey_body (o : Object) (i : Int) (e : Effect) :
    (o.fieldAt i).bind (fun f => f.key.s?.map (Effect.free_key i)) = some e ↔
      ∃ t, e = Effect.free_key i t ∧ (o.fieldAt i).map (fun f => f.key) = some (KeyType.s t) := by
  cases hf : o.fieldAt i with
  | none => simp
  | some f =>
    cases hk : f.key with
    | s t => simp [KeyType.s?, hk, eq_comm]
    | i v => simp [KeyType.s?, hk]
    | p a => simp [KeyType.s?, hk]

theorem releaseKey_body (o : Object) (i : Int) (e : Effect) :
    (o.fieldAt i).bind (fun f => f.key.p?.map (Effect.Release_key i)) = some e ↔
      ∃ a, e = Effect.Release_key i a ∧ (o.fieldAt i).map (fun f => f.key) = some (KeyType.p a) := by
  cases hf : o.fieldAt i with
  | none => simp
  | some f =>
    cases hk : f.key with
    | s t => simp [KeyType.p?, hk]
    | i v => simp [KeyType.p?, hk]
    | p a => simp [KeyType.p?, hk, eq_comm]

theorem slot_defined (w : Nat) (o : Object) (h : Object.ZoneInv w o) (i : Int)
    (h0 : 0 ≤ i) (h1 : i < o.mFieldCount) :
    ∃ f, o.fieldAt i = some f ∧ o.fields[i.toNat]? = some f := by
  obtain ⟨_, hlen, _⟩ := h
  have hl : i.toNat < o.fields.length := by omega
  refine ⟨o.fields[i.toNat], ?_, List.getElem?_eq_getElem hl⟩
  unfold Object.fieldAt
  rw [if_pos h0]
  exact List.getElem?_eq_getElem hl

theorem string_zone_field (w : Nat) (o : Object) (h : Object.ZoneInv w o) (hty : Object.ZoneTyped o) (i : Int)
    (h0 : o.mKeyOffsetString ≤ i) (h1 : i < o.mFieldCount) :
    ∃ t, (o.fieldAt i).map (fun f => f.key) = some (KeyType.s t) := by
  have hord := h.1
  obtain ⟨f, hf, hg⟩ := slot_defined w o h i (by unfold Object.ZoneOrder at hord; omega) h1
  unfold Object.ZoneOrder at hord
  have hmem : f ∈ (o.fields.take o.mFieldCount.toNat).drop o.mKeyOffsetString.toNat := by
    refine List.mem_iff_getElem?.mpr ⟨i.toNat - o.mKeyOffsetString.toNat, ?_⟩
    rw [List.getElem?_drop, List.getElem?_take_of_lt (by omega)]
    have : o.mKeyOffsetString.toNat + (i.toNat - o.mKeyOffsetString.toNat) = i.toNat := by omega
    rw [this]; exact hg
  have hs := hty.2 f hmem
  cases hk : f.key with
  | s t => exact ⟨t, by rw [hf]; simp [hk]⟩
  | i v => rw [hk] at hs; cases hs
  | p a => rw [hk] at hs; cases hs

theorem object_zone_field (w : Nat) (o : Object) (h : Object.ZoneInv w o) (hty : Object.ZoneTyped o) (i : Int)
    (h0 : o.mKeyOffsetObject ≤ i) (h1 : i < o.mKeyOffsetString) :
    ∃ a, (o.fieldAt i).map (fun f => f.key) = some (KeyType.p a) := by
  have hord := h.1
  unfold Object.ZoneOrder at hord
  obtain ⟨f, hf, hg⟩ := slot_defined w o h i (by omega) (by omega)
  have hmem : f ∈ (o.fields.take o.mKeyOffsetString.toNat).drop o.mKeyOffsetObject.toNat := by
    refine List.mem_iff_getElem?.mpr ⟨i.toNat - o.mKeyOffsetObject.toNat, ?_⟩
    rw [List.getElem?_drop, List.getElem?_take_of_lt (by omega)]
    have : o.mKeyOffsetObject.toNat + (i.toNat - o.mKeyOffsetObject.toNat) = i.toNat := by omega
    rw [this]; exact hg
  have hs := hty.1 f hmem
  cases hk : f.key with
  | s t => rw [hk] at hs; cases hs
  | i v => rw [hk] at hs; cases hs
  | p a => exact ⟨a, by rw [hf]; simp [hk]⟩

theorem free_calls (w : Nat) (o : Object) (h : Object.ZoneInv w o) (hty : Object.ZoneTyped o)
    (hf : o.mFields ≠ none) :
    Free o = some ({ o with mFields := none, mFieldCount := 0, mFieldCountMax := 0 },
      stringKeyFrees o ++ objectKeyReleases o ++ valueFrees o ++ [Effect.free_mFields]) := by
  have hord := h.1
  unfold Object.ZoneOrder at hord
  obtain ⟨h0, h1, h2⟩ := hord
  cases hm : o.mFields with
  | none => exact absurd hm hf
  | some fs =>
    unfold Free
    rw [hm]
    simp only
    by_cases hc : o.mFieldCount ≠ 0
    · rw [if_pos hc]
      have e1 : o.mFieldCount - 1 =
          o.mKeyOffsetString + (((o.mFieldCount - o.mKeyOffsetString).toNat : Nat) : Int) - 1 := by
        omega
      have e2 : o.mKeyOffsetString - 1 =
          o.mKeyOffsetObject + (((o.mKeyOffsetString - o.mKeyOffsetObject).toNat : Nat) : Int) - 1 := by
        omega
      have e3 : o.mFieldCount = ((o.mFieldCount.toNat : Nat) : Int) := by omega
      have l1 := downLoop_spec
        (fun i => (o.fieldAt i).bind (fun f => f.key.s?.map (Effect.free_key i)))
        o.mKeyOffsetString (o.mFieldCount - o.mKeyOffsetString).toNat (o.mFieldCount.toNat + 1)
        (by omega) (by
          intro t ht
          obtain ⟨x, hx⟩ := string_zone_field w o h hty (o.mKeyOffsetString + (t : Int))
            (by omega) (by omega)
          exact Option.isSome_iff_exists.mpr
            ⟨_, (freeKey_body o _ _).mpr ⟨x, rfl, hx⟩⟩)
      have l2 := downLoop_spec
        (fun i => (o.fieldAt i).bind (fun f => f.key.p?.map (Effect.Release_key i)))
        o.mKeyOffsetObject (o.mKeyOffsetString - o.mKeyOffsetObject).toNat (o.mFieldCount.toNat + 1)
        (by omega) (by
          intro t ht
          obtain ⟨x, hx⟩ := object_zone_field w o h hty (o.mKeyOffsetObject + (t : Int))
            (by omega) (by omega)
          exact Option.isSome_iff_exists.mpr
            ⟨_, (releaseKey_body o _ _).mpr ⟨x, rfl, hx⟩⟩)
      have l3 := freeValues_spec o o.mFieldCount.toNat (o.mFieldCount.toNat + 1) (by omega) (by
          intro t ht
          obtain ⟨f, hf1, _⟩ := slot_defined w o h (t : Int) (by omega) (by omega)
          rw [hf1]; rfl)
      rw [← e1] at l1
      rw [← e2] at l2
      rw [← e3] at l3
      rw [l1]
      simp only
      rw [l2]
      simp only
      rw [l3]
      simp only [stringKeyFrees, objectKeyReleases, valueFrees]
    · have hz : o.mFieldCount = 0 := by omega
      rw [if_neg hc]
      have hk1 : o.mKeyOffsetString = 0 := by omega
      have hk2 : o.mKeyOffsetObject = 0 := by omega
      have ea : stringKeyFrees o = [] := by unfold stringKeyFrees; rw [hz, hk1]; rfl
      have eb : objectKeyReleases o = [] := by unfold objectKeyReleases; rw [hk1, hk2]; rfl
      have ec : valueFrees o = [] := by unfold valueFrees; rw [hz]; rfl
      rw [ea, eb, ec]
      simp only [List.nil_append, Option.some.injEq, Prod.mk.injEq, and_true]
      cases o
      simp only at hz
      subst hz
      rfl

theorem mem_stringKeyFrees (o : Object) (hord : o.mKeyOffsetString ≤ o.mFieldCount) (e : Effect) :
    e ∈ stringKeyFrees o ↔
      ∃ i t, e = Effect.free_key i t ∧ o.mKeyOffsetString ≤ i ∧ i < o.mFieldCount ∧
        (o.fieldAt i).map (fun f => f.key) = some (KeyType.s t) := by
  have hm := mem_zoneCalls
    (fun i => (o.fieldAt i).bind (fun f => f.key.s?.map (Effect.free_key i)))
    o.mKeyOffsetString (o.mFieldCount - o.mKeyOffsetString).toNat e
  unfold stringKeyFrees
  rw [hm]
  constructor
  · rintro ⟨i, h1, h2, hb⟩
    obtain ⟨t, ht, hk⟩ := (freeKey_body o i e).mp hb
    exact ⟨i, t, ht, h1, by omega, hk⟩
  · rintro ⟨i, t, ht, h1, h2, hk⟩
    exact ⟨i, h1, by omega, (freeKey_body o i e).mpr ⟨t, ht, hk⟩⟩

theorem mem_objectKeyReleases (o : Object) (hord : o.mKeyOffsetObject ≤ o.mKeyOffsetString)
    (e : Effect) :
    e ∈ objectKeyReleases o ↔
      ∃ i a, e = Effect.Release_key i a ∧ o.mKeyOffsetObject ≤ i ∧ i < o.mKeyOffsetString ∧
        (o.fieldAt i).map (fun f => f.key) = some (KeyType.p a) := by
  have hm := mem_zoneCalls
    (fun i => (o.fieldAt i).bind (fun f => f.key.p?.map (Effect.Release_key i)))
    o.mKeyOffsetObject (o.mKeyOffsetString - o.mKeyOffsetObject).toNat e
  unfold objectKeyReleases
  rw [hm]
  constructor
  · rintro ⟨i, h1, h2, hb⟩
    obtain ⟨t, ht, hk⟩ := (releaseKey_body o i e).mp hb
    exact ⟨i, t, ht, h1, by omega, hk⟩
  · rintro ⟨i, t, ht, h1, h2, hk⟩
    exact ⟨i, h1, by omega, (releaseKey_body o i e).mpr ⟨t, ht, hk⟩⟩

theorem mem_valueFrees (o : Object) (e : Effect) :
    e ∈ valueFrees o ↔ ∃ i, e = Effect.Free_value i ∧ 0 ≤ i ∧ i < o.mFieldCount := by
  unfold valueFrees
  rw [List.mem_map]
  constructor
  · rintro ⟨t, ht, he⟩
    rw [List.mem_reverse, List.mem_range] at ht
    exact ⟨(t : Int), he.symm, by omega, by omega⟩
  · rintro ⟨i, he, h0, h1⟩
    refine ⟨i.toNat, ?_, ?_⟩
    · rw [List.mem_reverse, List.mem_range]; omega
    · have : ((i.toNat : Nat) : Int) = i := by omega
      rw [this, he]

theorem nodup_free_calls (o : Object) (h1 : o.mKeyOffsetObject ≤ o.mKeyOffsetString)
    (h2 : o.mKeyOffsetString ≤ o.mFieldCount) :
    (stringKeyFrees o ++ objectKeyReleases o ++ valueFrees o ++ [Effect.free_mFields]).Nodup := by
  have na : (stringKeyFrees o).Nodup := by
    unfold stringKeyFrees
    apply nodup_zoneCalls (fun i => (o.fieldAt i).bind (fun f => f.key.s?.map (Effect.free_key i)))
    intro i j e hi hj
    obtain ⟨t, ht, _⟩ := (freeKey_body o i e).mp hi
    obtain ⟨u, hu, _⟩ := (freeKey_body o j e).mp hj
    rw [ht] at hu
    injection hu
  have nb : (objectKeyReleases o).Nodup := by
    unfold objectKeyReleases
    apply nodup_zoneCalls (fun i => (o.fieldAt i).bind (fun f => f.key.p?.map (Effect.Release_key i)))
    intro i j e hi hj
    obtain ⟨t, ht, _⟩ := (releaseKey_body o i e).mp hi
    obtain ⟨u, hu, _⟩ := (releaseKey_body o j e).mp hj
    rw [ht] at hu
    injection hu
  have nc : (valueFrees o).Nodup := by
    unfold valueFrees
    apply List.Nodup.map
    · intro a b hab
      injection hab with hab
      exact Int.ofNat.inj hab
    · exact List.nodup_reverse.mpr (List.nodup_range _)
  rw [List.nodup_append, List.nodup_append, List.nodup_append]
  refine ⟨⟨⟨na, nb, ?_⟩, nc, ?_⟩, List.nodup_singleton _, ?_⟩
  · intro e ha hb
    obtain ⟨i, t, he, _⟩ := (mem_stringKeyFrees o h2 e).mp ha
    obtain ⟨j, a, he2, _⟩ := (mem_objectKeyReleases o h1 e).mp hb
    rw [he] at he2
    cases he2
  · intro e hab hc
    obtain ⟨j, he2, _⟩ := (mem_valueFrees o e).mp hc
    rcases List.mem_append.mp hab with ha | hb
    · obtain ⟨i, t, he, _⟩ := (mem_stringKeyFrees o h2 e).mp ha
      rw [he] at he2
      cases he2
    · obtain ⟨i, t, he, _⟩ := (mem_objectKeyReleases o h1 e).mp hb
      rw [he] at he2
      cases he2
  · intro e habc hd
    rw [List.mem_singleton] at hd
    rcases List.mem_append.mp habc with hab | hc
    · rcases List.mem_append.mp hab with ha | hb
      · obtain ⟨i, t, he, _⟩ := (mem_stringKeyFrees o h2 e).mp ha
        rw [he] at hd
        cases hd
      · obtain ⟨i, t, he, _⟩ := (mem_objectKeyReleases o h1 e).mp hb
        rw [he] at hd
        cases hd
    · obtain ⟨j, he, _⟩ := (mem_valueFrees o e).mp hc
      rw [he] at hd
      cases hd

/-- C18: on an object satisfying the zone invariant (boundaries ordered, every slot below
`mFieldCount` initialised, object keys in `[mKeyOffsetObject, mKeyOffsetString)` and string
keys in `[mKeyOffsetString, mFieldCount)`), `MetaObject::Free` returns.  With `mFields`
null it makes no call and leaves the object as it is.  Otherwise it leaves `mFields` null,
`mFieldCount = 0` and `mFieldCountMax = 0`, and the calls it makes are, in order, the
string-key frees, the object-key releases, the value frees and last of all the free of
the field array; no call is made twice; the keys freed are exactly the string keys at the
indices `[mKeyOffsetString, mFieldCount)`, the keys released exactly the object keys at
`[mKeyOffsetObject, mKeyOffsetString)` (so no key below `mKeyOffsetObject` is touched),
and the values freed are exactly those at `[0, mFieldCount)`. -/
theorem C18_free_teardown (w : Nat) (o : Object) (hinv : Object.ZoneInv w o)
    (hty : Object.ZoneTyped o) :
    (o.mFields = none → Free o = some (o, [])) ∧
    (o.mFields ≠ none →
      ∃ calls : List Effect,
        Free o = some ({ o with mFields := none, mFieldCount := 0, mFieldCountMax := 0 }, calls) ∧
        calls = stringKeyFrees o ++ objectKeyReleases o ++ valueFrees o ++ [Effect.free_mFields] ∧
        calls.Nodup ∧
        (∀ i, o.mKeyOffsetString ≤ i → i < o.mFieldCount →
          ∃ t, (o.fieldAt i).map (fun f => f.key) = some (KeyType.s t) ∧
            Effect.free_key i t ∈ calls) ∧
        (∀ i t, Effect.free_key i t ∈ calls →
          o.mKeyOffsetString ≤ i ∧ i < o.mFieldCount ∧
            (o.fieldAt i).map (fun f => f.key) = some (KeyType.s t)) ∧
        (∀ i, o.mKeyOffsetObject ≤ i → i < o.mKeyOffsetString →
          ∃ a, (o.fieldAt i).map (fun f => f.key) = some (KeyType.p a) ∧
            Effect.Release_key i a ∈ calls) ∧
        (∀ i a, Effect.Release_key i a ∈ calls →
          o.mKeyOffsetObject ≤ i ∧ i < o.mKeyOffsetString ∧
            (o.fieldAt i).map (fun f => f.key) = some (KeyType.p a)) ∧
        (∀ i, Effect.Free_value i ∈ calls ↔ 0 ≤ i ∧ i < o.mFieldCount) ∧
        (∀ a, Effect.AddRef a ∉ calls ∧ Effect.Release a ∉ calls) ∧
        calls.getLast? = some Effect.free_mFields) := by
  have hord := hinv.1
  unfold Object.ZoneOrder at hord
  obtain ⟨h0, h1, h2⟩ := hord
  refine ⟨fun hn => by unfold Free; rw [hn], fun hf => ?_⟩
  have hmem : ∀ e, e ∈ stringKeyFrees o ++ objectKeyReleases o ++ valueFrees o ++
      [Effect.free_mFields] ↔
      (∃ i t, e = Effect.free_key i t ∧ o.mKeyOffsetString ≤ i ∧ i < o.mFieldCount ∧
        (o.fieldAt i).map (fun f => f.key) = some (KeyType.s t)) ∨
      (∃ i a, e = Effect.Release_key i a ∧ o.mKeyOffsetObject ≤ i ∧ i < o.mKeyOffsetString ∧
        (o.fieldAt i).map (fun f => f.key) = some (KeyType.p a)) ∨
      (∃ i, e = Effect.Free_value i ∧ 0 ≤ i ∧ i < o.mFieldCount) ∨
      e = Effect.free_mFields := by
    intro e
    rw [List.mem_append, List.mem_append, List.mem_append, mem_stringKeyFrees o h2,
      mem_objectKeyReleases o h1, mem_valueFrees, List.mem_singleton]
    simp only [or_assoc]
  refine ⟨_, free_calls w o hinv hty hf, rfl, nodup_free_calls o h1 h2, ?_, ?_, ?_, ?_, ?_, ?_, ?_⟩
  · intro i hi1 hi2
    obtain ⟨t, ht⟩ := string_zone_field w o hinv hty i hi1 hi2
    exact ⟨t, ht, (hmem _).mpr (Or.inl ⟨i, t, rfl, hi1, hi2, ht⟩)⟩
  · intro i t hc
    rcases (hmem _).mp hc with ⟨j, u, he, hj1, hj2, hk⟩ | ⟨j, u, he, _⟩ | ⟨j, he, _⟩ | he
    · injection he with e1 e2
      subst e1; subst e2
      exact ⟨hj1, hj2, hk⟩
    · cases he
    · cases he
    · cases he
  · intro i hi1 hi2
    obtain ⟨a, ha⟩ := object_zone_field w o hinv hty i hi1 hi2
    exact ⟨a, ha, (hmem _).mpr (Or.inr (Or.inl ⟨i, a, rfl, hi1, hi2, ha⟩))⟩
  · intro i a hc
    rcases (hmem _).mp hc with ⟨j, u, he, _⟩ | ⟨j, u, he, hj1, hj2, hk⟩ | ⟨j, he, _⟩ | he
    · cases he
    · injection he with e1 e2
      subst e1; subst e2
      exact ⟨hj1, hj2, hk⟩
    · cases he
    · cases he
  · intro i
    constructor
    · intro hc
      rcases (hmem _).mp hc with ⟨j, u, he, _⟩ | ⟨j, u, he, _⟩ | ⟨j, he, hj1, hj2⟩ | he
      · cases he
      · cases he
      · injection he with e1
        subst e1
        exact ⟨hj1, hj2⟩
      · cases he
    · rintro ⟨hi1, hi2⟩
      exact (hmem _).mpr (Or.inr (Or.inr (Or.inl ⟨i, rfl, hi1, hi2⟩)))
  · intro a
    constructor
    · intro hc
      rcases (hmem _).mp hc with ⟨j, u, he, _⟩ | ⟨j, u, he, _⟩ | ⟨j, he, _⟩ | he <;> cases he
    · intro hc
      rcases (hmem _).mp hc with ⟨j, u, he, _⟩ | ⟨j, u, he, _⟩ | ⟨j, he, _⟩ | he <;> cases he
  · rw [List.getLast?_append]
    rfl

/-- C18 at the object with integer keys 1 and 2, one object key and the string keys "x"
and "y": the two string keys are freed, the object key is released, the five values are
freed, then the field array. -/
theorem C18_witness :
    Object.ZoneInv 32 Object.sampleMixed ∧ Object.ZoneTyped Object.sampleMixed ∧
    Free Object.sampleMixed =
      some ({ Object.sampleMixed with mFields := none, mFieldCount := 0, mFieldCountMax := 0 },
        [Effect.free_key 4 "y".toList, Effect.free_key 3 "x".toList, Effect.Release_key 2 4096,
         Effect.Free_value 4, Effect.Free_value 3, Effect.Free_value 2, Effect.Free_value 1,
         Effect.Free_value 0, Effect.free_mFields]) ∧
    Object.sampleMixed.mFields ≠ none ∧
    (∃ calls : List Effect,
      Free Object.sampleMixed =
        some ({ Object.sampleMixed with mFields := none, mFieldCount := 0, mFieldCountMax := 0 },
          calls) ∧
      calls = stringKeyFrees Object.sampleMixed ++ objectKeyReleases Object.sampleMixed ++
        valueFrees Object.sampleMixed ++ [Effect.free_mFields] ∧
      calls.Nodup) :=
  ⟨by decide, by decide, by decide, by decide,
    let ⟨calls, hc1, hc2, hc3, _⟩ :=
      (C18_free_teardown 32 Object.sampleMixed (by decide) (by decide)).2 (by decide)
    ⟨calls, hc1, hc2, hc3⟩⟩

end MetaObject


namespace Object

theorem wrapS_sub_wrapS (w : Nat) (x b : Int) :
    wrapS w (wrapS w x - b) = wrapS w (x - b) := by
  unfold wrapS
  generalize ((2 ^ (w - 1) : Nat) : Int) = H
  generalize ((2 ^ w : Nat) : Int) = M
  have e1 : (x + H) % M - H - b + H = (x + H) % M - b := by omega
  have e2 : x - b + H = (x + H) - b := by omega
  rw [e1, e2, Int.sub_emod, Int.emod_emod, ← Int.sub_emod]

theorem reduceKeys_fold (w : Nat) (a : Int) (o : Object) (fs : List FieldType)
    (hm : o.mFields = some fs) :
    ∀ m : Nat, m ≤ fs.length → (∀ f ∈ fs.take m, f.key.isInt = true) →
      (List.range m).foldlM
        (fun (acc : Object) (i : Nat) =>
          match acc.fieldAt i with
          | none => none
          | some f =>
            match f.key.i? with
            | none => none
            | some k =>
              some { acc with
                mFields := some (acc.fields.set i { f with key := .i (wrapS w (k - a)) }) })
        o =
      some { o with mFields := some ((fs.take m).map (reducedField w a) ++ fs.drop m) } := by
  intro m
  induction m with
  | zero =>
    intro _ _
    cases o
    simp only at hm
    subst hm
    rfl
  | succ m ih =>
    intro hlen hint
    have hm1 : m < fs.length := by omega
    have hprev := ih (by omega) (fun f hf => hint f (by
      rw [List.take_succ]
      exact List.mem_append_left _ hf))
    rw [List.range_succ, List.foldlM_append, hprev]
    simp only [Option.bind_eq_bind, Option.some_bind, List.foldlM_cons, List.foldlM_nil]
    have hlen1 : ((fs.take m).map (reducedField w a)).length = m := by
      rw [List.length_map, List.length_take]; omega
    have hget : ((fs.take m).map (reducedField w a) ++ fs.drop m)[m]? = some fs[m] := by
      rw [List.getElem?_append_right (by omega), hlen1, Nat.sub_self, List.getElem?_drop]
      exact List.getElem?_eq_getElem hm1
    have hfa : Object.fieldAt
        { o with mFields := some ((fs.take m).map (reducedField w a) ++ fs.drop m) } (m : Int) =
        some fs[m] := by
      unfold Object.fieldAt Object.fields
      rw [if_pos (by omega)]
      simpa using hget
    have hmem : fs[m] ∈ fs.take (m + 1) := by
      rw [List.take_succ, List.getElem?_eq_getElem hm1]
      exact List.mem_append_right _ (by simp)
    have hkey := hint _ hmem
    cases hk : (fs[m]).key with
    | s t => rw [hk] at hkey; cases hkey
    | p t => rw [hk] at hkey; cases hkey
    | i k =>
      rw [hfa]
      simp only [hk, KeyType.i?, Option.pure_def, Option.bind_some]
      have hx : ({ value := (fs[m]).value, key := KeyType.i (wrapS w (k - a)) } : FieldType) =
          reducedField w a fs[m] := by
        unfold reducedField
        rw [hk]
        rfl
      have hset : ((fs.take m).map (reducedField w a) ++ fs.drop m).set m
          { value := (fs[m]).value, key := KeyType.i (wrapS w (k - a)) } =
          (fs.take (m + 1)).map (reducedField w a) ++ fs.drop (m + 1) := by
        rw [hx, List.set_append, if_neg (by omega), hlen1, Nat.sub_self,
          List.drop_eq_getElem_cons hm1, List.set_cons_zero, List.take_succ,
          List.getElem?_eq_getElem hm1]
        simp only [Option.toList, List.map_append, List.map_cons, List.map_nil,
          List.append_assoc, List.singleton_append]
      simp only [Object.fields, Option.getD_some, hset]

theorem intZoneDefined_of_zoneInv (w : Nat) (o : Object) (h : ZoneInv w o) :
    IntZoneDefined o := by
  obtain ⟨⟨h0, h1, h2⟩, hlen, _, hty, _, _⟩ := h
  exact ⟨by omega, hty⟩

theorem reduceKeys_eq (w : Nat) (o : Object) (a : Int) (h : IntZoneDefined o) :
    ReduceKeys w o a = some (keysReduced w o a) := by
  obtain ⟨hlen, hint⟩ := h
  cases hm : o.mFields with
  | none =>
    have h0 : o.mKeyOffsetObject.toNat = 0 := by
      unfold Object.fields at hlen
      rw [hm] at hlen
      simpa using hlen
    unfold ReduceKeys keysReduced
    rw [h0, hm]
    cases o
    simp only at hm
    subst hm
    rfl
  | some fs =>
    have hf : o.fields = fs := by unfold Object.fields; rw [hm]; rfl
    unfold ReduceKeys keysReduced
    rw [reduceKeys_fold w a o fs hm o.mKeyOffsetObject.toNat (by rw [← hf]; exact hlen)
      (by unfold intZone at hint; rw [hf] at hint; exact hint), hm]
    rfl

theorem fields_keysReduced (w : Nat) (o : Object) (a : Int) :
    (keysReduced w o a).fields =
      (o.fields.take o.mKeyOffsetObject.toNat).map (reducedField w a) ++
        o.fields.drop o.mKeyOffsetObject.toNat := by
  unfold keysReduced Object.fields
  cases o.mFields with
  | none => simp
  | some fs => rfl

theorem intZone_keysReduced (w : Nat) (o : Object) (a : Int) (h : IntZoneDefined o) :
    intZone (keysReduced w o a) = (intZone o).map (reducedField w a) := by
  have hl : ((o.fields.take o.mKeyOffsetObject.toNat).map (reducedField w a)).length =
      o.mKeyOffsetObject.toNat := by
    rw [List.length_map, List.length_take]
    exact Nat.min_eq_left h.1
  unfold intZone
  rw [fields_keysReduced]
  have hk : (keysReduced w o a).mKeyOffsetObject = o.mKeyOffsetObject := rfl
  rw [hk, List.take_append_eq_append_take, hl, Nat.sub_self, List.take_zero, List.append_nil,
    List.take_of_length_le (by omega)]

theorem intKeys_keysReduced (w : Nat) (o : Object) (a : Int) (h : IntZoneDefined o) :
    intKeys (keysReduced w o a) = (intKeys o).map (fun k => wrapS w (k - a)) := by
  unfold intKeys
  rw [intZone_keysReduced w o a h, List.map_map, List.map_map]
  rfl

theorem intZoneDefined_keysReduced (w : Nat) (o : Object) (a : Int) (h : IntZoneDefined o) :
    IntZoneDefined (keysReduced w o a) := by
  refine ⟨?_, ?_⟩
  · have hk : (keysReduced w o a).mKeyOffsetObject = o.mKeyOffsetObject := rfl
    rw [hk, fields_keysReduced, List.length_append, List.length_map, List.length_take,
      List.length_drop]
    have := h.1
    omega
  · rw [intZone_keysReduced w o a h]
    intro f hf
    obtain ⟨g, _, hg⟩ := List.mem_map.mp hf
    rw [← hg]
    rfl

theorem keysReduced_keysReduced (w : Nat) (o : Object) (a b : Int) (h : IntZoneDefined o) :
    keysReduced w (keysReduced w o a) b = keysReduced w o (a + b) := by
  have hcomp : ∀ f : FieldType,
      reducedField w b (reducedField w a f) = reducedField w (a + b) f := by
    intro f
    unfold reducedField
    simp only [KeyType.i?, Option.getD_some]
    rw [wrapS_sub_wrapS, Int.sub_sub]
  cases hm : o.mFields with
  | none =>
    unfold keysReduced
    simp only [hm, Option.map_none']
  | some fs =>
    have hf : o.fields = fs := by unfold Object.fields; rw [hm]; rfl
    have hlen : o.mKeyOffsetObject.toNat ≤ fs.length := by rw [← hf]; exact h.1
    have hl : ((fs.take o.mKeyOffsetObject.toNat).map (reducedField w a)).length =
        o.mKeyOffsetObject.toNat := by
      rw [List.length_map, List.length_take]
      exact Nat.min_eq_left hlen
    unfold keysReduced
    simp only [hm, Option.map_some']
    rw [List.take_append_eq_append_take, hl, Nat.sub_self, List.take_zero, List.append_nil,
      List.take_of_length_le (by omega), List.drop_append_eq_append_drop, hl, Nat.sub_self,
      List.drop_zero, List.drop_of_length_le (by omega), List.nil_append, List.map_map]
    have hfun : (reducedField w b ∘ reducedField w a) = reducedField w (a + b) :=
      funext hcomp
    rw [hfun]

theorem keysReduced_zero (w : Nat) (hw : 0 < w) (o : Object) (h : ZoneInv w o) :
    keysReduced w o 0 = o := by
  have hfix : ∀ f ∈ intZone o, reducedField w 0 f = f := by
    intro f hf
    have hint := h.2.2.2.1 f hf
    cases hk : f.key with
    | s t => rw [hk] at hint; cases hint
    | p t => rw [hk] at hint; cases hint
    | i k =>
      have hr : InRangeS w k := h.2.2.2.2.1 k (by
        unfold intKeys
        exact List.mem_map.mpr ⟨f, hf, by rw [hk]; rfl⟩)
      unfold reducedField
      rw [hk]
      simp only [KeyType.i?, Option.getD_some, Int.sub_zero]
      rw [wrapS_of_inRange w hw k hr, ← hk]
  have hmap : (o.fields.take o.mKeyOffsetObject.toNat).map (reducedField w 0) =
      o.fields.take o.mKeyOffsetObject.toNat := by
    have : ∀ f ∈ o.fields.take o.mKeyOffsetObject.toNat, reducedField w 0 f = id f := hfix
    rw [List.map_congr_left this, List.map_id]
  cases hm : o.mFields with
  | none =>
    unfold keysReduced
    cases o
    simp only at hm
    subst hm
    rfl
  | some fs =>
    have hf : o.fields = fs := by unfold Object.fields; rw [hm]; rfl
    rw [hf] at hmap
    unfold keysReduced
    simp only [hm, Option.map_some']
    rw [hmap, List.take_append_drop]
    cases o
    simp only at hm
    subst hm
    rfl

/-- C21 (as stated) fails: on a 32-bit build the object with integer keys 0 and 2147483647
satisfies the zone invariant, and `ReduceKeys(-1)` leaves the keys 1 and -2147483648: the
second is not the key minus the amount, and the keys are no longer ascending. -/
theorem C21_counterexample :
    ZoneInv 32 sampleEdge ∧ InRangeS 32 (-1) ∧
    intKeys sampleEdge = [0, 2147483647] ∧
    (ReduceKeys 32 sampleEdge (-1)).map intKeys = some [1, -2147483648] ∧
    (ReduceKeys 32 sampleEdge (-1)).map intKeys ≠
      some ((intKeys sampleEdge).map (fun k => k - (-1))) ∧
    (ReduceKeys 32 sampleEdge (-1)).map
      (fun o1 => decide ((intKeys o1).Pairwise (fun x y => x < y))) = some false := by
  refine ⟨by decide, by decide, by decide, by decide, by decide, by decide⟩

/-- C21 (amended): on an object satisfying the zone invariant `ReduceKeys(a)` returns, and
the object afterwards is the one in which every key of the integer zone is the old key
minus `a` stored into the `w`-bit key member, every other member, every value and every
field outside the integer zone being unchanged.  When every difference `k - a` is
representable in the key member, the new keys are exactly `k - a`, they are strictly
ascending and the zone invariant holds again.  `ReduceKeys(0)` changes nothing, and
`ReduceKeys(a)` followed by `ReduceKeys(b)` gives the state `ReduceKeys(a+b)` gives. -/
theorem C21_reduceKeys (w : Nat) (hw : 0 < w) (o : Object) (h : ZoneInv w o) (a b : Int) :
    ReduceKeys w o a = some (keysReduced w o a) ∧
    (keysReduced w o a).toObjectBase = o.toObjectBase ∧
    (keysReduced w o a).mBase = o.mBase ∧
    (keysReduced w o a).mFieldCount = o.mFieldCount ∧
    (keysReduced w o a).mFieldCountMax = o.mFieldCountMax ∧
    (keysReduced w o a).mKeyOffsetObject = o.mKeyOffsetObject ∧
    (keysReduced w o a).mKeyOffsetString = o.mKeyOffsetString ∧
    (keysReduced w o a).fields.length = o.fields.length ∧
    (keysReduced w o a).fields.map (fun f => f.value) = o.fields.map (fun f => f.value) ∧
    (keysReduced w o a).fields.drop o.mKeyOffsetObject.toNat =
      o.fields.drop o.mKeyOffsetObject.toNat ∧
    intKeys (keysReduced w o a) = (intKeys o).map (fun k => wrapS w (k - a)) ∧
    ((∀ k ∈ intKeys o, InRangeS w (k - a)) →
      intKeys (keysReduced w o a) = (intKeys o).map (fun k => k - a) ∧
      (intKeys (keysReduced w o a)).Pairwise (fun x y => x < y) ∧
      ZoneInv w (keysReduced w o a)) ∧
    ReduceKeys w o 0 = some o ∧
    (ReduceKeys w o a).bind (fun o1 => ReduceKeys w o1 b) = ReduceKeys w o (a + b) := by
  have hd := intZoneDefined_of_zoneInv w o h
  have hred := reduceKeys_eq w o a hd
  have hkeys := intKeys_keysReduced w o a hd
  have hl : ((o.fields.take o.mKeyOffsetObject.toNat).map (reducedField w a)).length =
      o.mKeyOffsetObject.toNat := by
    rw [List.length_map, List.length_take]
    exact Nat.min_eq_left hd.1
  have hlen : (keysReduced w o a).fields.length = o.fields.length := by
    rw [fields_keysReduced, List.length_append, List.length_map, List.length_take,
      List.length_drop]
    have := hd.1
    omega
  refine ⟨hred, rfl, rfl, rfl, rfl, rfl, rfl, hlen, ?_, ?_, hkeys, ?_, ?_, ?_⟩
  · rw [fields_keysReduced, List.map_append, List.map_map]
    have hv : ((fun f => f.value) ∘ reducedField w a) = (fun (f : FieldType) => f.value) :=
      funext (fun _ => rfl)
    rw [hv, ← List.map_append, List.take_append_drop]
  · rw [fields_keysReduced, List.drop_append_eq_append_drop, hl, Nat.sub_self, List.drop_zero,
      List.drop_of_length_le (by omega), List.nil_append]
  · intro hr
    have hexact : intKeys (keysReduced w o a) = (intKeys o).map (fun k => k - a) := by
      rw [hkeys]
      apply List.map_congr_left
      intro k hk
      exact wrapS_of_inRange w hw _ (hr k hk)
    have hpw : (intKeys (keysReduced w o a)).Pairwise (fun x y => x < y) := by
      rw [hexact]
      exact List.Pairwise.map _ (fun x y hxy => by omega) h.2.2.2.2.2
    refine ⟨hexact, hpw, h.1, ?_, h.2.2.1, (intZoneDefined_keysReduced w o a hd).2, ?_, hpw⟩
    · rw [hlen]
      exact h.2.1
    · intro k hk
      rw [hexact] at hk
      obtain ⟨k0, hk0, he⟩ := List.mem_map.mp hk
      rw [← he]
      exact hr k0 hk0
  · rw [reduceKeys_eq w o 0 hd, keysReduced_zero w hw o h]
  · rw [hred, Option.some_bind,
      reduceKeys_eq w _ b (intZoneDefined_keysReduced w o a hd),
      keysReduced_keysReduced w o a b hd, reduceKeys_eq w o (a + b) hd]

/-- C21 at the array with integer keys 1, 2, 3 (32-bit build): reducing by 1 gives the
keys 0, 1, 2, and reducing by 1 and then by 2 is reducing by 3. -/
theorem C21_witness :
    0 < 32 ∧ ZoneInv 32 sampleArray ∧
    ReduceKeys 32 sampleArray 1 = some (keysReduced 32 sampleArray 1) ∧
    intKeys (keysReduced 32 sampleArray 1) = [0, 1, 2] ∧
    ReduceKeys 32 sampleArray 0 = some sampleArray ∧
    (ReduceKeys 32 sampleArray 1).bind (fun o1 => ReduceKeys 32 o1 2) =
      ReduceKeys 32 sampleArray (1 + 2) :=
  ⟨by decide, by decide, (C21_reduceKeys 32 (by decide) sampleArray (by decide) 1 2).1,
    by decide,
    (C21_reduceKeys 32 (by decide) sampleArray (by decide) 1 2).2.2.2.2.2.2.2.2.2.2.2.2.1,
    (C21_reduceKeys 32 (by decide) sampleArray (by decide) 1 2).2.2.2.2.2.2.2.2.2.2.2.2.2⟩

end Object


namespace ObjectBase

theorem inc_dec_mod (R c : Nat) (h1 : 1 ≤ c) (hU : c < R) :
    (c + 1) % R ≠ 1 ∧ ((c + 1) % R + R - 1) % R = c := by
  by_cases hlt : c + 1 < R
  · rw [Nat.mod_eq_of_lt hlt]
    refine ⟨by omega, ?_⟩
    have : c + 1 + R - 1 = c + R := by omega
    rw [this, Nat.add_mod_right, Nat.mod_eq_of_lt hU]
  · have he : c + 1 = R := by omega
    rw [he, Nat.mod_self]
    refine ⟨by omega, ?_⟩
    rw [Nat.zero_add, Nat.mod_eq_of_lt (by omega)]
    omega

theorem release_after_addRef (hook : DeleteHook) (s : ObjectBase) (h1 : 1 ≤ s.mRefCount)
    (hU : s.mRefCount < ULONG_RANGE) :
    (AddRef s).2.mRefCount ≠ 1 ∧
    Release hook (AddRef s).2 = { ret := s.mRefCount, obj := s, deleteCalls := 0 } := by
  obtain ⟨hne, hback⟩ := inc_dec_mod ULONG_RANGE s.mRefCount h1 hU
  have hadd : (AddRef s).2 = { s with mRefCount := (s.mRefCount + 1) % ULONG_RANGE } := by
    unfold AddRef
    simp only
  rw [hadd]
  refine ⟨hne, ?_⟩
  unfold Release
  simp only
  rw [if_neg hne, hback]

end ObjectBase

namespace Object

/-- C22: re-assigning the current prototype.  For an object whose prototype `b` is
non-null and has a count of at least 1 (the object's own reference), `SetBase(b)` calls
`AddRef` on `b` and then `Release` on `b`; the count `Release` sees is not 1, so `Release`
does not take its teardown branch (no `Delete` call), also when the count was 1 before the
call; `b` is afterwards exactly as it was, count included, and the object is unchanged. -/
theorem C22_setBase_same_prototype (hook : ObjectBase.DeleteHook) (o : Object) (s : ObjectBase)
    (hb : o.mBase ≠ 0) (h1 : 1 ≤ s.mRefCount) (hU : s.mRefCount < ULONG_RANGE) :
    (SetBase o o.mBase).2 = [Effect.AddRef o.mBase, Effect.Release o.mBase] ∧
    (ObjectBase.AddRef s).2.mRefCount ≠ 1 ∧
    ObjectBase.Release hook (ObjectBase.AddRef s).2 =
      { ret := s.mRefCount, obj := s, deleteCalls := 0 } ∧
    ObjectBase.applyCalls hook o.mBase (SetBase o o.mBase).2 s = (s, 0) ∧
    (SetBase o o.mBase).1 = o ∧ Base (SetBase o o.mBase).1 = o.mBase := by
  have hlog : (SetBase o o.mBase).2 = [Effect.AddRef o.mBase, Effect.Release o.mBase] := by
    unfold SetBase
    simp only [ne_eq, hb, not_false_eq_true, if_true, List.singleton_append]
  obtain ⟨hne, hrel⟩ := ObjectBase.release_after_addRef hook s h1 hU
  refine ⟨hlog, hne, hrel, ?_, rfl, rfl⟩
  rw [hlog]
  unfold ObjectBase.applyCalls
  rw [if_pos rfl]
  unfold ObjectBase.applyCalls
  rw [if_pos rfl]
  simp only [hrel]
  unfold ObjectBase.applyCalls
  rfl

/-- C22 at an object holding the only reference to its prototype (count 1), with the
`Delete` of `ObjectBase` (which would destroy the prototype) as the hook. -/
theorem C22_witness :
    ObjectBase.applyCalls ObjectBase.Delete 4096
      (SetBase { sampleOne with mBase := 4096 } 4096).2 ObjectBase.new = (ObjectBase.new, 0) ∧
    (ObjectBase.Release ObjectBase.Delete ObjectBase.new).deleteCalls = 1 :=
  ⟨(C22_setBase_same_prototype ObjectBase.Delete { sampleOne with mBase := 4096 } ObjectBase.new
      (by decide) (by decide) (by unfold ULONG_RANGE; decide)).2.2.2.1, by decide⟩

end Object


namespace Object

/-- C23 (as stated) fails for negative offsets: on the array with integer keys 1, 2, 3 the
test `aOffset >= mKeyOffsetObject` is false for `aOffset = -1`, so `GetItemOffset` goes on
to `mFields[-1]`, a slot outside the field array; it does not return false. -/
theorem C23_counterexample :
    ZoneInv 32 sampleArray ∧ GetNumericItemCount sampleArray = 3 ∧
    ¬ (sampleArray.mKeyOffsetObject ≤ -1) ∧
    sampleArray.fieldAt (-1) = none ∧
    GetItemOffset sampleArray (.SYM_INTEGER 0) (-1) = none ∧
    GetItemOffset sampleArray (.SYM_INTEGER 0) (-1) ≠ some (false, .SYM_INTEGER 0) := by
  refine ⟨by decide, by decide, by decide, by decide, by decide, by decide⟩

/-- C23 (amended): on an object satisfying the zone invariant, for every offset `i >= 0`,
`GetItemOffset(i)` returns true exactly when `i < mKeyOffsetObject`, and then the token is
the value of the `i`-th field of the integer zone; for every `i >= mKeyOffsetObject` it
returns false, leaves the token as it was and indexes no field.  A negative `i` passes the
only test the function makes and `mFields[i]` is read outside the array.
`GetNumericItemCount()` is `mKeyOffsetObject` whenever that fits an `int`. -/
theorem C23_getItemOffset (w : Nat) (o : Object) (h : ZoneInv w o) (tok : ExprTokenType)
    (i : Int) :
    (0 ≤ i → i < o.mKeyOffsetObject →
      ∃ f, o.fieldAt i = some f ∧ (intZone o)[i.toNat]? = some f ∧
        GetItemOffset o tok i = some (true, f.ToToken)) ∧
    (o.mKeyOffsetObject ≤ i → GetItemOffset o tok i = some (false, tok)) ∧
    (0 ≤ i →
      ((GetItemOffset o tok i).map (fun r => r.1) = some true ↔ i < o.mKeyOffsetObject)) ∧
    (i < 0 → GetItemOffset o tok i = none) ∧
    (o.mKeyOffsetObject < 2147483648 → GetNumericItemCount o = o.mKeyOffsetObject) := by
  have hhit : 0 ≤ i → i < o.mKeyOffsetObject →
      ∃ f, o.fieldAt i = some f ∧ (intZone o)[i.toNat]? = some f ∧
        GetItemOffset o tok i = some (true, f.ToToken) := by
    intro h0 h1
    have hi : ((i.toNat : Nat) : Int) = i := by omega
    obtain ⟨f, _, hf, _, hz, _⟩ := zone_field w o h i.toNat (by omega)
    rw [hi] at hf
    refine ⟨f, hf, hz, ?_⟩
    unfold GetItemOffset
    rw [if_neg (by omega), hf]
    rfl
  have hmiss : o.mKeyOffsetObject ≤ i → GetItemOffset o tok i = some (false, tok) := by
    intro h1
    unfold GetItemOffset
    rw [if_pos h1]
  refine ⟨hhit, hmiss, ?_, ?_, ?_⟩
  · intro h0
    constructor
    · intro hr
      by_contra hge
      rw [hmiss (by omega)] at hr
      cases hr
    · intro h1
      obtain ⟨f, _, _, hg⟩ := hhit h0 h1
      rw [hg]
      rfl
  · intro hneg
    have hk := h.1.1
    unfold GetItemOffset Object.fieldAt
    rw [if_neg (by omega), if_neg (by omega)]
    rfl
  · intro hlt
    have hk := h.1.1
    unfold GetNumericItemCount
    apply toInt32_of_inRange
    unfold InRangeS
    constructor
    · have : (0 : Int) ≤ ((2 ^ (32 - 1) : Nat) : Int) := Int.ofNat_nonneg _
      omega
    · have : ((2 ^ (32 - 1) : Nat) : Int) = 2147483648 := by norm_num
      omega

/-- C23 at the array with integer keys 1, 2, 3 and one string key: offset 1 yields the
value stored under key 2, offset 3 (the string-keyed field) yields nothing. -/
theorem C23_witness :
    ZoneInv 32 sampleArray ∧
    GetItemOffset sampleArray (.SYM_INTEGER 0) 1 = some (true, .SYM_STRING "b".toList) ∧
    GetItemOffset sampleArray (.SYM_INTEGER 0) 3 = some (false, .SYM_INTEGER 0) ∧
    GetNumericItemCount sampleArray = sampleArray.mKeyOffsetObject :=
  ⟨by decide, by decide,
    (C23_getItemOffset 32 sampleArray (by decide) (.SYM_INTEGER 0) 3).2.1 (by decide),
    (C23_getItemOffset 32 sampleArray (by decide) (.SYM_INTEGER 0) 3).2.2.2.2 (by decide)⟩

end Object


namespace Hook

theorem toNat_emod_of_fits (w : Nat) (hw : 32 ≤ w) (x : Int) (h0 : 0 ≤ x)
    (h1 : x < ((2 ^ 32 : Nat) : Int)) :
    (x % ((2 ^ w : Nat) : Int)).toNat = x.toNat ∧ x.toNat % 2 ^ 32 = x.toNat := by
  have hpow : (2 : Nat) ^ 32 ≤ 2 ^ w := Nat.pow_le_pow_right (by decide) hw
  have hpowI : ((2 ^ 32 : Nat) : Int) ≤ ((2 ^ w : Nat) : Int) := Int.ofNat_le.mpr hpow
  constructor
  · rw [Int.emod_eq_of_lt h0 (by omega)]
  · apply Nat.mod_eq_of_lt
    omega

/-- C24: `TRANSLATE_AHK_MSG` replaces `msg` by `(UINT)wparam` and `wparam` by 0 when
`msg` is `WM_COMMNOTIFY` and changes neither otherwise.  Hence a message posted by
`ASK_INSTANCE_TO_CLOSE(hwnd, reason)` with a reason that fits a `UINT` translates to
`msg = reason`, `wparam = 0`, and the message posted by `POST_AHK_DIALOG` translates to
`msg = AHK_DIALOG`, `wparam = 0` (`WM_COMMNOTIFY` and `AHK_DIALOG` being `UINT` values and
`WPARAM` at least 32 bits wide). -/
theorem C24_translate_ahk_msg (e : WinEnv) (msg wparam : Nat) :
    (msg = e.WM_COMMNOTIFY → TRANSLATE_AHK_MSG e msg wparam = (wparam % 2 ^ 32, 0)) ∧
    (msg ≠ e.WM_COMMNOTIFY → TRANSLATE_AHK_MSG e msg wparam = (msg, wparam)) ∧
    (∀ (hwnd : Nat) (reason : Int), 32 ≤ e.ptrBits → e.WM_COMMNOTIFY < 2 ^ 32 →
      0 ≤ reason → reason < ((2 ^ 32 : Nat) : Int) →
      (ASK_INSTANCE_TO_CLOSE e hwnd reason).message = e.WM_COMMNOTIFY ∧
      ((ASK_INSTANCE_TO_CLOSE e hwnd reason).wParam : Int) = reason ∧
      translatePosted e (ASK_INSTANCE_TO_CLOSE e hwnd reason) = (reason.toNat, 0)) ∧
    (∀ timeout : Int, 32 ≤ e.ptrBits → e.WM_COMMNOTIFY < 2 ^ 32 → AHK_DIALOG e < 2 ^ 32 →
      (POST_AHK_DIALOG e timeout).message = e.WM_COMMNOTIFY ∧
      (POST_AHK_DIALOG e timeout).wParam = AHK_DIALOG e ∧
      translatePosted e (POST_AHK_DIALOG e timeout) = (AHK_DIALOG e, 0)) := by
  have hmsg : ∀ n : Nat, n < 2 ^ 32 → ((n : Int) % ((2 ^ 32 : Nat) : Int)).toNat = n := by
    intro n hn
    rw [Int.emod_eq_of_lt (by omega) (by omega)]
    rfl
  refine ⟨?_, ?_, ?_, ?_⟩
  · intro h
    unfold TRANSLATE_AHK_MSG
    rw [if_pos h]
  · intro h
    unfold TRANSLATE_AHK_MSG
    rw [if_neg h]
  · intro hwnd reason hw hc h0 h1
    obtain ⟨ha, hb⟩ := toNat_emod_of_fits e.ptrBits hw reason h0 h1
    have hm : (ASK_INSTANCE_TO_CLOSE e hwnd reason).message = e.WM_COMMNOTIFY := hmsg _ hc
    have hwp : (ASK_INSTANCE_TO_CLOSE e hwnd reason).wParam = reason.toNat := ha
    refine ⟨hm, by rw [hwp]; omega, ?_⟩
    unfold translatePosted TRANSLATE_AHK_MSG
    rw [if_pos hm, hwp, hb]
  · intro timeout hw hc hd
    obtain ⟨ha, hb⟩ := toNat_emod_of_fits e.ptrBits hw (AHK_DIALOG e : Nat) (by omega) (by omega)
    have hm : (POST_AHK_DIALOG e timeout).message = e.WM_COMMNOTIFY := hmsg _ hc
    have hwp : (POST_AHK_DIALOG e timeout).wParam = AHK_DIALOG e := by
      have : (POST_AHK_DIALOG e timeout).wParam = ((AHK_DIALOG e : Nat) : Int).toNat := ha
      rw [this]
      rfl
    refine ⟨hm, hwp, ?_⟩
    unfold translatePosted TRANSLATE_AHK_MSG
    rw [if_pos hm, hwp, Nat.mod_eq_of_lt hd]

/-- C24 with the Win32 values on a 64-bit build: the dialog message and a close request
with a reason of 1030 (`WM_USER + 6`). -/
theorem C24_witness :
    translatePosted win64 (ASK_INSTANCE_TO_CLOSE win64 7 1030) = ((1030 : Int).toNat, 0) ∧
    translatePosted win64 (POST_AHK_DIALOG win64 5) = (AHK_DIALOG win64, 0) ∧
    TRANSLATE_AHK_MSG win64 68 4294967301 = (4294967301 % 2 ^ 32, 0) ∧
    TRANSLATE_AHK_MSG win64 69 4294967301 = (69, 4294967301) :=
  ⟨((C24_translate_ahk_msg win64 0 0).2.2.1 7 1030 (by decide) (by decide) (by decide)
      (by decide)).2.2,
    ((C24_translate_ahk_msg win64 0 0).2.2.2 5 (by decide) (by decide) (by decide)).2.2,
    (C24_translate_ahk_msg win64 68 4294967301).1 (by decide),
    (C24_translate_ahk_msg win64 69 4294967301).2.1 (by decide)⟩

end Hook


namespace Hook

theorem land_mod_idem (x m : Nat) :
    ((x &&& m) % 2 ^ 8 &&& m) % 2 ^ 8 = (x &&& m) % 2 ^ 8 := by
  apply Nat.eq_of_testBit_eq
  intro i
  simp only [Nat.testBit_mod_two_pow, Nat.testBit_land]
  cases decide (i < 8) <;> cases x.testBit i <;> cases m.testBit i <;> rfl

/-- C25: after `RESET_KEYTYPE_ATTRIB(item)` the members `nModifierVK`, `nModifierSC` and
`used_as_prefix` are 0, `used_as_suffix`, `used_as_key_up` and `sc_takes_precedence` are
false, `no_suppress` has exactly those of its bits that are also set in
`NO_SUPPRESS_STATES`, every other member is as before, and a second reset changes
nothing. -/
theorem C25_reset_keytype_attrib (N : Nat) (item : key_type) :
    (RESET_KEYTYPE_ATTRIB N item).nModifierVK = 0 ∧
    (RESET_KEYTYPE_ATTRIB N item).nModifierSC = 0 ∧
    key_type.used_as_prefix (RESET_KEYTYPE_ATTRIB N item) = 0 ∧
    (RESET_KEYTYPE_ATTRIB N item).used_as_suffix = false ∧
    (RESET_KEYTYPE_ATTRIB N item).used_as_key_up = false ∧
    (RESET_KEYTYPE_ATTRIB N item).sc_takes_precedence = false ∧
    (∀ i : Nat, (RESET_KEYTYPE_ATTRIB N item).no_suppress.testBit i =
      (decide (i < 8) && (item.no_suppress.testBit i && N.testBit i))) ∧
    (item.no_suppress < 2 ^ 8 →
      (RESET_KEYTYPE_ATTRIB N item).no_suppress = item.no_suppress &&& N ∧
      ∀ i : Nat, (RESET_KEYTYPE_ATTRIB N item).no_suppress.testBit i =
        (item.no_suppress.testBit i && N.testBit i)) ∧
    (RESET_KEYTYPE_ATTRIB N item).pForceToggle = item.pForceToggle ∧
    (RESET_KEYTYPE_ATTRIB N item).as_modifiersLR = item.as_modifiersLR ∧
    (RESET_KEYTYPE_ATTRIB N item).hotkey_to_fire_upon_release =
      item.hotkey_to_fire_upon_release ∧
    (RESET_KEYTYPE_ATTRIB N item).is_down = item.is_down ∧
    (RESET_KEYTYPE_ATTRIB N item).it_put_alt_down = item.it_put_alt_down ∧
    (RESET_KEYTYPE_ATTRIB N item).it_put_shift_down = item.it_put_shift_down ∧
    (RESET_KEYTYPE_ATTRIB N item).down_performed_action = item.down_performed_action ∧
    (RESET_KEYTYPE_ATTRIB N item).hotkey_down_was_suppressed =
      item.hotkey_down_was_suppressed ∧
    (RESET_KEYTYPE_ATTRIB N item).was_just_used = item.was_just_used ∧
    (RESET_KEYTYPE_ATTRIB N item).ModifierVK = item.ModifierVK ∧
    (RESET_KEYTYPE_ATTRIB N item).ModifierSC = item.ModifierSC ∧
    RESET_KEYTYPE_ATTRIB N (RESET_KEYTYPE_ATTRIB N item) = RESET_KEYTYPE_ATTRIB N item := by
  have hbits : ∀ i : Nat, (RESET_KEYTYPE_ATTRIB N item).no_suppress.testBit i =
      (decide (i < 8) && (item.no_suppress.testBit i && N.testBit i)) := by
    intro i
    unfold RESET_KEYTYPE_ATTRIB
    simp only [Nat.testBit_mod_two_pow, Nat.testBit_land]
  have hle : item.no_suppress &&& N ≤ item.no_suppress := Nat.and_le_left
  refine ⟨rfl, rfl, rfl, rfl, rfl, rfl, hbits, ?_, rfl, rfl, rfl, rfl, rfl, rfl, rfl, rfl,
    rfl, rfl, rfl, ?_⟩
  · intro hlt
    have heq : (RESET_KEYTYPE_ATTRIB N item).no_suppress = item.no_suppress &&& N := by
      unfold RESET_KEYTYPE_ATTRIB
      exact Nat.mod_eq_of_lt (by omega)
    refine ⟨heq, ?_⟩
    intro i
    rw [heq, Nat.testBit_land]
  · unfold RESET_KEYTYPE_ATTRIB
    simp only [land_mod_idem]

/-- C25 at a key with the `no_suppress` flags 7 and `NO_SUPPRESS_STATES = 4`: the flags
become 4, the modifier arrays and the key-down state stay. -/
theorem C25_witness :
    sampleKey.no_suppress < 2 ^ 8 ∧
    (RESET_KEYTYPE_ATTRIB 4 sampleKey).no_suppress = sampleKey.no_suppress &&& 4 ∧
    (RESET_KEYTYPE_ATTRIB 4 sampleKey).no_suppress = 4 ∧
    (RESET_KEYTYPE_ATTRIB 4 sampleKey).ModifierVK = [{ vk := 65, id_with_flags := 3 }] ∧
    (RESET_KEYTYPE_ATTRIB 4 sampleKey).is_down = true :=
  ⟨by decide,
    ((C25_reset_keytype_attrib 4 sampleKey).2.2.2.2.2.2.2.1 (by decide)).1,
    by decide, by decide, by decide⟩

end Hook

end Ahk
